import Mathlib

/-!
Verification development for the godynamo data-access layer.

The definitions in this file are a shallow embedding of the Go sources:

* `internal/ui/filter.go` — the filter compiler (`FilterBuilder.BuildExpression`,
  `parseValue`);
* `internal/dynamo/client.go` — the continuous scan executor
  (`Client.ScanTableContinuous`), `interfaceToAttributeValue`, and the region
  discovery fan-out (`DiscoverRegionsWithTables`);
* the TUI model file (`src/unnamed/part_003`) — the query/scan planner
  (`Model.scanTable`) and the resumption driver (`Model.continueScan`).

Go strings are modeled as Lean `String`; Go maps built by insertion of fresh
keys are modeled as association lists in insertion order with first-match
lookup; Go `nil`-able slices/maps are modeled with `Option` where the code
distinguishes `nil` from empty.  Go `float64` values produced by
`strconv.ParseFloat` are abstracted by the accepted source literal (no claim in
this development depends on float arithmetic or formatting).
-/

/-- Decimal digit character, `digitChar n` is the character for digit `n < 10`. -/
def digitChar (n : Nat) : Char := Char.ofNat (48 + n)

/-- Fuel-driven decimal rendering helper (most significant digit first). -/
def decAux : Nat → Nat → List Char
  | 0, _ => []
  | fuel + 1, n =>
    if n < 10 then [digitChar n]
    else decAux fuel (n / 10) ++ [digitChar (n % 10)]

/-- Decimal rendering of a natural number; models Go `fmt.Sprintf` with the
verb for decimal integers (used for placeholder indices). -/
def natStr (n : Nat) : String := ⟨decAux (n + 1) n⟩

/-- Go `strings.Contains(s, sub)`: `sub` occurs as a contiguous substring of `s`. -/
def goContains (s sub : String) : Bool := decide (sub.data <:+: s.data)

/-- Go `strings.HasPrefix(s, pre)`. -/
def goHasPrefix (s pre : String) : Bool := decide (pre.data <+: s.data)

/-- Go `strings.Join(elems, sep)`. -/
def goJoin (sep : String) : List String → String
  | [] => ""
  | [x] => x
  | x :: y :: rest => x ++ sep ++ goJoin sep (y :: rest)

/-- Split a character list at the first occurrence of `sep`, returning the
parts before and after that occurrence. -/
def splitFirstChars (sep : List Char) : List Char → Option (List Char × List Char)
  | [] => if sep = [] then some ([], []) else none
  | c :: rest =>
    if sep <+: (c :: rest) then some ([], (c :: rest).drop sep.length)
    else
      match splitFirstChars sep rest with
      | some (pre, post) => some (c :: pre, post)
      | none => none

/-- Go `strings.SplitN(s, sep, 2)` (for nonempty `sep`): either `[s]` when
`sep` does not occur, or the parts before and after its first occurrence. -/
def goSplitN2 (s sep : String) : List String :=
  match splitFirstChars sep.data s.data with
  | some (pre, post) => [⟨pre⟩, ⟨post⟩]
  | none => [s]

/-- Association-list lookup with first-match semantics; models Go map indexing
`m[k]` for the maps built in this code base (all keys distinct). -/
def mapGet {β : Type} (m : List (String × β)) (k : String) : Option β :=
  match m.find? (fun kv => decide (kv.1 = k)) with
  | some kv => some kv.2
  | none => none

/-- Lowercase an ASCII letter; other characters unchanged. -/
def asciiLower (c : Char) : Char :=
  if 'A' ≤ c ∧ c ≤ 'Z' then Char.ofNat (c.toNat + 32) else c

/-- Go `strings.ToLower` restricted to the ASCII range (the only range the
compared literals `"true"`, `"false"`, `"null"` exercise). -/
def goToLower (s : String) : String := ⟨s.data.map asciiLower⟩

/-- Whitespace test of Go `unicode.IsSpace` (ASCII part plus NEL and NBSP). -/
def isSpaceGo (c : Char) : Bool :=
  c = ' ' ∨ c = '\t' ∨ c = '\n' ∨ c = '\x0b' ∨ c = '\x0c' ∨ c = '\r' ∨
    c = '\x85' ∨ c = '\xa0'

/-- Go `strings.TrimSpace`: strip leading and trailing whitespace. -/
def goTrimSpace (s : String) : String :=
  ⟨((s.data.dropWhile isSpaceGo).reverse.dropWhile isSpaceGo).reverse⟩

/-- Decimal digit test. -/
def isDec (c : Char) : Bool := '0' ≤ c ∧ c ≤ '9'

/-- Hexadecimal digit test. -/
def isHex (c : Char) : Bool :=
  isDec c || ('a' ≤ c ∧ c ≤ 'f') || ('A' ≤ c ∧ c ≤ 'F')

/-- Consume further digits of a digit run, allowing a single underscore
between two digits (the shape of the underscore rule in the Go number parser). -/
def munchMore (isD : Char → Bool) : List Char → List Char
  | '_' :: c :: rest => if isD c then munchMore isD rest else '_' :: c :: rest
  | c :: rest => if isD c then munchMore isD rest else c :: rest
  | [] => []

/-- Consume a digit run (at least one digit, underscores between digits);
`none` when no leading digit is present. -/
def munchU (isD : Char → Bool) (l : List Char) : Option (List Char) :=
  match l with
  | c :: rest => if isD c then some (munchMore isD rest) else none
  | [] => none

/-- Strip one optional leading sign. -/
def afterSign : List Char → List Char
  | '+' :: rest => rest
  | '-' :: rest => rest
  | l => l

/-- Mantissa of a decimal floating-point literal: digits, an optional point,
optional fractional digits; at least one digit overall. Returns the rest. -/
def decMantissa (l : List Char) : Option (List Char) :=
  match munchU isDec l with
  | some rest =>
    match rest with
    | '.' :: rest2 =>
      match munchU isDec rest2 with
      | some r => some r
      | none => some rest2
    | _ => some rest
  | none =>
    match l with
    | '.' :: rest2 => munchU isDec rest2
    | _ => none

/-- Mantissa of a hexadecimal floating-point literal (after the base prefix). -/
def hexMantissa (l : List Char) : Option (List Char) :=
  match munchU isHex l with
  | some rest =>
    match rest with
    | '.' :: rest2 =>
      match munchU isHex rest2 with
      | some r => some r
      | none => some rest2
    | _ => some rest
  | none =>
    match l with
    | '.' :: rest2 => munchU isHex rest2
    | _ => none

/-- Exponent part: the given exponent letter (case-insensitive), an optional
sign and a nonempty decimal digit run consuming the whole rest. -/
def expTail (letter : Char) (l : List Char) : Bool :=
  match l with
  | c :: rest =>
    if asciiLower c = letter then
      match munchU isDec (afterSign rest) with
      | some [] => true
      | _ => false
    else false
  | [] => false

/-- Decimal floating-point literal body (no sign): mantissa and an optional
decimal exponent. -/
def decFloat (l : List Char) : Bool :=
  match decMantissa l with
  | some [] => true
  | some rest => expTail 'e' rest
  | none => false

/-- Hexadecimal floating-point literal body after `0x` (optionally a single
underscore after the prefix), with the mandatory binary exponent. -/
def hexFloat (l : List Char) : Bool :=
  let l := match l with
    | '_' :: c :: rest => if isHex c then c :: rest else '_' :: c :: rest
    | l => l
  match hexMantissa l with
  | some rest => expTail 'p' rest
  | none => false

/-- Acceptance predicate of Go `strconv.ParseFloat(s, 64)`: special values
(signed infinities, NaN), decimal and hexadecimal floating-point literals with
an optional sign.  Only syntactic acceptance is modeled; the numeric value is
abstracted by the literal itself. -/
def goFloatAccepts (s : String) : Bool :=
  let l := s.data
  let low := l.map asciiLower
  if low = "inf".data ∨ low = "+inf".data ∨ low = "-inf".data ∨
     low = "infinity".data ∨ low = "+infinity".data ∨ low = "-infinity".data ∨
     low = "nan".data then true
  else
    let l1 := afterSign l
    match l1 with
    | '0' :: c :: rest => if asciiLower c = 'x' then hexFloat rest else decFloat l1
    | _ => decFloat l1

/-- Model of a Go `interface{}` value stored by the filter compiler:
a `float64` (abstracted by its accepted literal), a `bool`, Go `nil`
(produced for the literal `"null"`), or a `string`. -/
inductive GoValue where
  | num (lit : String)
  | boolean (b : Bool)
  | null
  | str (s : String)
deriving DecidableEq

/-- Model of `parseValue` (filter.go:254–275): try to parse as a number, then
as a boolean, then as null, else keep the string. -/
def parseValue (value : String) : GoValue :=
  if goFloatAccepts value then .num value
  else if goToLower value = "true" then .boolean true
  else if goToLower value = "false" then .boolean false
  else if goToLower value = "null" then .null
  else .str value

/-- The filter operators of `filter.go` (`FilterOperator`). -/
inductive FilterOperator where
  | opEquals
  | opNotEquals
  | opGreaterThan
  | opLessThan
  | opGreaterOrEqual
  | opLessOrEqual
  | opContains
  | opNotContains
  | opBeginsWith
  | opExists
  | opNotExists
deriving DecidableEq

/-- A filter condition row (`FilterCondition`); the two text inputs are
modeled by the strings their `Value()` accessors return. -/
structure FilterCondition where
  attributeName : String
  operator : FilterOperator
  attributeValue : String
deriving DecidableEq

/-- Whether the operator requires a value (all except Exists/NotExists). -/
def needsValue : FilterOperator → Bool
  | .opExists => false
  | .opNotExists => false
  | _ => true

/-- The rendered sub-expression for one condition, by operator
(the `expr` templates of `BuildExpression`). -/
def condExpr (op : FilterOperator) (np vp : String) : String :=
  match op with
  | .opEquals => np ++ " = " ++ vp
  | .opNotEquals => np ++ " <> " ++ vp
  | .opGreaterThan => np ++ " > " ++ vp
  | .opLessThan => np ++ " < " ++ vp
  | .opGreaterOrEqual => np ++ " >= " ++ vp
  | .opLessOrEqual => np ++ " <= " ++ vp
  | .opContains => "contains(" ++ np ++ ", " ++ vp ++ ")"
  | .opNotContains => "NOT contains(" ++ np ++ ", " ++ vp ++ ")"
  | .opBeginsWith => "begins_with(" ++ np ++ ", " ++ vp ++ ")"
  | .opExists => "attribute_exists(" ++ np ++ ")"
  | .opNotExists => "attribute_not_exists(" ++ np ++ ")"

/-- The stored attribute value for one condition: the string-oriented
operators (Contains, NotContains, BeginsWith) store the raw string, all other
valued operators coerce through `parseValue`. -/
def condValue (op : FilterOperator) (value : String) : GoValue :=
  match op with
  | .opContains => .str value
  | .opNotContains => .str value
  | .opBeginsWith => .str value
  | _ => parseValue value

/-- The accumulation loop of `FilterBuilder.BuildExpression`
(filter.go:278–394).  State: rendered expressions, the name-placeholder map
(insertion order), the value-placeholder map, the value counter.  A condition
with a blank trimmed name is skipped entirely; a valued condition reserves its
name placeholder and is then dropped when its trimmed value is empty. -/
def buildLoop : List FilterCondition → List String → List (String × String) →
    List (String × GoValue) → Nat →
    List String × List (String × String) × List (String × GoValue)
  | [], exprs, names, vals, _ => (exprs, names, vals)
  | cond :: rest, exprs, names, vals, valueCounter =>
    let name := goTrimSpace cond.attributeName
    let value := goTrimSpace cond.attributeValue
    if name = "" then buildLoop rest exprs names vals valueCounter
    else
      let namePlaceholder := "#attr" ++ natStr names.length
      let names := names ++ [(namePlaceholder, name)]
      if needsValue cond.operator then
        if value = "" then buildLoop rest exprs names vals valueCounter
        else
          let valuePlaceholder := ":val" ++ natStr valueCounter
          buildLoop rest
            (exprs ++ [condExpr cond.operator namePlaceholder valuePlaceholder])
            names (vals ++ [(valuePlaceholder, condValue cond.operator value)])
            (valueCounter + 1)
      else
        buildLoop rest (exprs ++ [condExpr cond.operator namePlaceholder ""])
          names vals valueCounter

/-- Model of `FilterBuilder.BuildExpression` (filter.go:278–401).  `none`
models the `return "", nil, nil` case (no condition rendered); otherwise the
expression string joins the rendered conditions with `" AND "` and the two
placeholder maps are returned. -/
def BuildExpression (conds : List FilterCondition) :
    Option (String × List (String × String) × List (String × GoValue)) :=
  match buildLoop conds [] [] [] 0 with
  | (exprs, names, vals) =>
    if exprs = [] then none else some (goJoin " AND " exprs, names, vals)

example : natStr 0 = "0" := by decide
example : natStr 12 = "12" := by decide
example : goFloatAccepts "42" = true := by decide
example : goFloatAccepts "true" = false := by decide
example : parseValue "TRUE" = .boolean true := by decide
example : parseValue "null" = .null := by decide
example : parseValue "abc" = .str "abc" := by decide
example :
    BuildExpression [⟨"id", .opEquals, "42"⟩] =
      some ("#attr0 = :val0", [("#attr0", "id")], [(":val0", .num "42")]) := by decide
example :
    BuildExpression [⟨"a", .opEquals, ""⟩] = none := by decide

/-! ### Properties of the decimal rendering -/

/-- A character that renders a single decimal digit. -/
def digitish (c : Char) : Prop := ∃ d, d < 10 ∧ c = digitChar d

theorem decAux_spec : ∀ fuel n, n < fuel →
    ∃ d rest, d < 10 ∧ decAux fuel n = digitChar d :: rest ∧
      (∀ c ∈ rest, digitish c) ∧ (1 ≤ n → d ≠ 0) := by
  intro fuel
  induction fuel with
  | zero => intro n h; omega
  | succ fuel ih =>
    intro n h
    by_cases h10 : n < 10
    · refine ⟨n, [], h10, ?_, ?_, ?_⟩
      · simp [decAux, h10]
      · simp
      · intro h1 h0; omega
    · have hn0 : 0 < n := by omega
      have hdiv : n / 10 < fuel := by
        have h1 : n / 10 < n := Nat.div_lt_self hn0 (by omega)
        omega
      obtain ⟨d, rest, hd, heq, hdig, hnz⟩ := ih (n / 10) hdiv
      refine ⟨d, rest ++ [digitChar (n % 10)], hd, ?_, ?_, ?_⟩
      · simp [decAux, h10, heq]
      · intro c hc
        rcases List.mem_append.mp hc with hc | hc
        · exact hdig c hc
        · simp only [List.mem_singleton] at hc
          exact ⟨n % 10, Nat.mod_lt _ (by omega), hc⟩
      · intro _
        exact hnz (by
          have : 10 ≤ n := by omega
          exact Nat.one_le_div_iff (by omega) |>.mpr this)

theorem natStr_spec (n : Nat) :
    ∃ d rest, d < 10 ∧ (natStr n).data = digitChar d :: rest ∧
      (∀ c ∈ rest, digitish c) ∧ (1 ≤ n → d ≠ 0) := by
  simpa [natStr] using decAux_spec (n + 1) n (by omega)

theorem digitish_mem_natStr {c : Char} {n : Nat} (h : c ∈ (natStr n).data) :
    digitish c := by
  obtain ⟨d, rest, hd, heq, hdig, _⟩ := natStr_spec n
  rw [heq] at h
  rcases List.mem_cons.mp h with h | h
  · exact ⟨d, hd, h⟩
  · exact hdig c h

theorem digitish_ne_hash {c : Char} (h : digitish c) : c ≠ '#' := by
  obtain ⟨d, hd, rfl⟩ := h
  revert d
  decide

theorem digitChar_eq_zero_iff {d : Nat} (hd : d < 10) :
    digitChar d = '0' ↔ d = 0 := by
  revert d
  decide

theorem hash_not_mem_natStr (n : Nat) : '#' ∉ (natStr n).data := by
  intro h
  exact digitish_ne_hash (digitish_mem_natStr h) rfl

/-! ### Structured view of the compiled expression

To reason about the rendered expression string, each rendered condition is
abstracted by the operator together with the indices of its name and value
placeholders; `buildLoop_eq` proves that `buildLoop` renders exactly this
clause list. -/

/-- A rendered condition: operator, name-placeholder index, value-placeholder
index (meaningful only for valued operators). -/
structure RClause where
  op : FilterOperator
  ai : Nat
  vi : Nat
deriving DecidableEq

/-- Render a clause to its sub-expression text, exactly as `buildLoop` does. -/
def renderCl (cl : RClause) : String :=
  condExpr cl.op ("#attr" ++ natStr cl.ai)
    (if needsValue cl.op then ":val" ++ natStr cl.vi else "")

/-- Clause list produced by the compiler from a condition list, given the
starting name index and value counter. -/
def clausesOf : List FilterCondition → Nat → Nat → List RClause
  | [], _, _ => []
  | c :: rest, na, vc =>
    if goTrimSpace c.attributeName = "" then clausesOf rest na vc
    else if needsValue c.operator then
      if goTrimSpace c.attributeValue = "" then clausesOf rest (na + 1) vc
      else ⟨c.operator, na, vc⟩ :: clausesOf rest (na + 1) (vc + 1)
    else ⟨c.operator, na, 0⟩ :: clausesOf rest (na + 1) vc

/-- Name-placeholder map produced by the compiler, given the starting index. -/
def namesOf : List FilterCondition → Nat → List (String × String)
  | [], _ => []
  | c :: rest, na =>
    if goTrimSpace c.attributeName = "" then namesOf rest na
    else ("#attr" ++ natStr na, goTrimSpace c.attributeName) :: namesOf rest (na + 1)

/-- Value-placeholder map produced by the compiler, given the value counter. -/
def valsOf : List FilterCondition → Nat → List (String × GoValue)
  | [], _ => []
  | c :: rest, vc =>
    if goTrimSpace c.attributeName = "" then valsOf rest vc
    else if needsValue c.operator then
      if goTrimSpace c.attributeValue = "" then valsOf rest vc
      else (":val" ++ natStr vc, condValue c.operator (goTrimSpace c.attributeValue)) ::
        valsOf rest (vc + 1)
    else valsOf rest vc

theorem buildLoop_eq : ∀ (conds : List FilterCondition) exprs names vals vc,
    buildLoop conds exprs names vals vc =
      (exprs ++ (clausesOf conds names.length vc).map renderCl,
       names ++ namesOf conds names.length,
       vals ++ valsOf conds vc) := by
  intro conds
  induction conds with
  | nil => intro exprs names vals vc; simp [buildLoop, clausesOf, namesOf, valsOf]
  | cons c rest ih =>
    intro exprs names vals vc
    by_cases hname : goTrimSpace c.attributeName = ""
    · simp [buildLoop, clausesOf, namesOf, valsOf, hname, ih]
    · by_cases hval : needsValue c.operator
      · by_cases hempty : goTrimSpace c.attributeValue = ""
        · simp [buildLoop, clausesOf, namesOf, valsOf, hname, hval, hempty, ih,
            List.append_assoc]
        · simp [buildLoop, clausesOf, namesOf, valsOf, hname, hval, hempty, ih,
            List.append_assoc, renderCl]
      · simp [buildLoop, clausesOf, namesOf, valsOf, hname, hval, ih,
          List.append_assoc, renderCl]

theorem BuildExpression_eq (conds : List FilterCondition) :
    BuildExpression conds =
      if clausesOf conds 0 0 = [] then none
      else some (goJoin " AND " ((clausesOf conds 0 0).map renderCl),
        namesOf conds 0, valsOf conds 0) := by
  have h := buildLoop_eq conds [] [] [] 0
  simp only [List.length_nil, List.nil_append] at h
  simp [BuildExpression, h]

/-- A condition is kept (reserves a name placeholder) iff its trimmed
attribute name is non-blank. -/
def keptCond (c : FilterCondition) : Bool :=
  decide (goTrimSpace c.attributeName ≠ "")

/-- A condition emits a value placeholder iff it is kept, its operator needs a
value, and its trimmed value is non-empty. -/
def valuedCond (c : FilterCondition) : Bool :=
  keptCond c && needsValue c.operator && decide (goTrimSpace c.attributeValue ≠ "")

theorem namesOf_keys : ∀ (conds : List FilterCondition) na,
    (namesOf conds na).map Prod.fst =
      (List.range' na (conds.countP keptCond)).map (fun i => "#attr" ++ natStr i) := by
  intro conds
  induction conds with
  | nil => intro na; simp [namesOf]
  | cons c rest ih =>
    intro na
    by_cases hname : goTrimSpace c.attributeName = ""
    · simp [namesOf, hname, List.countP_cons, keptCond, ih]
    · simp [namesOf, hname, List.countP_cons, keptCond, ih, List.range'_succ]

theorem namesOf_length (conds : List FilterCondition) (na : Nat) :
    (namesOf conds na).length = conds.countP keptCond := by
  have h := congrArg List.length (namesOf_keys conds na)
  simpa using h

theorem valsOf_keys : ∀ (conds : List FilterCondition) vc,
    (valsOf conds vc).map Prod.fst =
      (List.range' vc (conds.countP valuedCond)).map (fun i => ":val" ++ natStr i) := by
  intro conds
  induction conds with
  | nil => intro vc; simp [valsOf]
  | cons c rest ih =>
    intro vc
    by_cases hname : goTrimSpace c.attributeName = ""
    · simp [valsOf, hname, List.countP_cons, valuedCond, keptCond, ih]
    · by_cases hval : needsValue c.operator
      · by_cases hempty : goTrimSpace c.attributeValue = ""
        · simp [valsOf, hname, hval, hempty, List.countP_cons, valuedCond, keptCond, ih]
        · simp [valsOf, hname, hval, hempty, List.countP_cons, valuedCond, keptCond, ih,
            List.range'_succ]
      · simp [valsOf, hname, hval, List.countP_cons, valuedCond, keptCond, ih]

theorem valsOf_length (conds : List FilterCondition) (vc : Nat) :
    (valsOf conds vc).length = conds.countP valuedCond := by
  have h := congrArg List.length (valsOf_keys conds vc)
  simpa using h

theorem clausesOf_ai_ge : ∀ (conds : List FilterCondition) na vc cl,
    cl ∈ clausesOf conds na vc → na ≤ cl.ai := by
  intro conds
  induction conds with
  | nil => intro na vc cl h; simp [clausesOf] at h
  | cons c rest ih =>
    intro na vc cl h
    by_cases hname : goTrimSpace c.attributeName = ""
    · exact ih na vc cl (by simpa [clausesOf, hname] using h)
    · by_cases hval : needsValue c.operator
      · by_cases hempty : goTrimSpace c.attributeValue = ""
        · have := ih (na + 1) vc cl (by simpa [clausesOf, hname, hval, hempty] using h)
          omega
        · simp only [clausesOf, hname, hval, hempty, ite_false, ite_true,
            if_neg, if_pos, List.mem_cons] at h
          rcases h with rfl | h
          · exact Nat.le_refl _
          · have := ih (na + 1) (vc + 1) cl h
            omega
      · simp only [clausesOf, hname, hval, ite_false, ite_true, Bool.false_eq_true,
          if_neg, List.mem_cons] at h
        rcases h with rfl | h
        · exact Nat.le_refl _
        · have := ih (na + 1) vc cl h
          omega

/-- Skipping a prefix of blank-name conditions leaves the compiler state
unchanged. -/
theorem clausesOf_blank_front : ∀ (pre : List FilterCondition) l na vc,
    (∀ c ∈ pre, goTrimSpace c.attributeName = "") →
    clausesOf (pre ++ l) na vc = clausesOf l na vc := by
  intro pre
  induction pre with
  | nil => intro l na vc _; simp
  | cons c rest ih =>
    intro l na vc h
    have hc := h c (by simp)
    simp only [List.cons_append, clausesOf, hc, ite_true, if_pos]
    exact ih l na vc (fun c hc2 => h c (by simp [hc2]))

theorem namesOf_blank_front : ∀ (pre : List FilterCondition) l na,
    (∀ c ∈ pre, goTrimSpace c.attributeName = "") →
    namesOf (pre ++ l) na = namesOf l na := by
  intro pre
  induction pre with
  | nil => intro l na _; simp
  | cons c rest ih =>
    intro l na h
    have hc := h c (by simp)
    simp only [List.cons_append, namesOf, hc, ite_true, if_pos]
    exact ih l na (fun c hc2 => h c (by simp [hc2]))

theorem valsOf_blank_front : ∀ (pre : List FilterCondition) l vc,
    (∀ c ∈ pre, goTrimSpace c.attributeName = "") →
    valsOf (pre ++ l) vc = valsOf l vc := by
  intro pre
  induction pre with
  | nil => intro l vc _; simp
  | cons c rest ih =>
    intro l vc h
    have hc := h c (by simp)
    simp only [List.cons_append, valsOf, hc, ite_true, if_pos]
    exact ih l vc (fun c hc2 => h c (by simp [hc2]))

/-! ### Occurrence analysis of the rendered expression

The planner in `Model.scanTable` inspects the rendered expression text with
`strings.Contains`.  Every rendered clause contains exactly one hash
character, opening its name placeholder; the lemmas below locate every
occurrence of a pattern starting with a hash at such a placeholder. -/

/-- The part of a rendered clause strictly before its hash character. -/
def clPre (op : FilterOperator) : String :=
  match op with
  | .opContains => "contains("
  | .opNotContains => "NOT contains("
  | .opBeginsWith => "begins_with("
  | .opExists => "attribute_exists("
  | .opNotExists => "attribute_not_exists("
  | _ => ""

/-- The part of a rendered clause after its name placeholder. -/
def clPost (cl : RClause) : String :=
  match cl.op with
  | .opEquals => " = :val" ++ natStr cl.vi
  | .opNotEquals => " <> :val" ++ natStr cl.vi
  | .opGreaterThan => " > :val" ++ natStr cl.vi
  | .opLessThan => " < :val" ++ natStr cl.vi
  | .opGreaterOrEqual => " >= :val" ++ natStr cl.vi
  | .opLessOrEqual => " <= :val" ++ natStr cl.vi
  | .opContains => ", :val" ++ natStr cl.vi ++ ")"
  | .opNotContains => ", :val" ++ natStr cl.vi ++ ")"
  | .opBeginsWith => ", :val" ++ natStr cl.vi ++ ")"
  | .opExists => ")"
  | .opNotExists => ")"

/-- The characters of a rendered clause from just after its hash character to
its end: the letters of the placeholder, the rendered index, the rest. -/
def hashPost (cl : RClause) : List Char :=
  'a' :: 't' :: 't' :: 'r' :: ((natStr cl.ai).data ++ (clPost cl).data)

theorem renderCl_data (cl : RClause) :
    (renderCl cl).data = (clPre cl.op).data ++ '#' :: hashPost cl := by
  obtain ⟨op, ai, vi⟩ := cl
  cases op <;>
    simp only [renderCl, condExpr, needsValue, clPre, clPost, hashPost,
      String.data_append, List.append_assoc, List.cons_append, List.nil_append,
      ite_true, ite_false]

theorem hash_not_mem_clPre (op : FilterOperator) : '#' ∉ (clPre op).data := by
  cases op <;> decide

theorem hash_not_mem_clPost (cl : RClause) : '#' ∉ (clPost cl).data := by
  obtain ⟨op, ai, vi⟩ := cl
  have hnat := hash_not_mem_natStr vi
  cases op <;>
    (simp only [clPost, String.data_append, List.mem_append, List.append_assoc]
     intro h
     first
       | exact absurd h (by decide)
       | (rcases h with h | h
          · exact absurd h (by decide)
          · first
              | exact hnat h
              | (rcases h with h | h
                 · exact hnat h
                 · exact absurd h (by decide))))

theorem hash_not_mem_hashPost (cl : RClause) : '#' ∉ hashPost cl := by
  simp only [hashPost, List.mem_cons, List.mem_append]
  intro h
  rcases h with h | h | h | h | h | h
  · exact absurd h (by decide)
  · exact absurd h (by decide)
  · exact absurd h (by decide)
  · exact absurd h (by decide)
  · exact absurd h (hash_not_mem_natStr _)
  · exact absurd h (hash_not_mem_clPost _)

/-- The character list of the joined expression for a clause list. -/
def joinedData (cls : List RClause) : List Char :=
  (goJoin " AND " (cls.map renderCl)).data

/-- The joined tail after the first clause: empty, or the separator followed
by the joined rest. -/
def tailJD : List RClause → List Char
  | [] => []
  | cls => " AND ".data ++ joinedData cls

theorem joinedData_cons (cl : RClause) (rest : List RClause) :
    joinedData (cl :: rest) = (renderCl cl).data ++ tailJD rest := by
  cases rest with
  | nil => simp [joinedData, tailJD, goJoin]
  | cons r rs =>
    simp [joinedData, tailJD, goJoin, String.data_append, List.append_assoc]

theorem head?_of_pfx {p q : List Char} {c : Char} (h : p <+: q)
    (hc : p.head? = some c) : q.head? = some c := by
  obtain ⟨t, rfl⟩ := h
  cases p with
  | nil => simp at hc
  | cons a p' => simp_all

theorem head?_mem_of_sfx {s w : List Char} {c : Char} (h : s <:+ w)
    (hc : s.head? = some c) : c ∈ w := by
  cases s with
  | nil => simp at hc
  | cons a s' =>
    simp only [List.head?_cons, Option.some.injEq] at hc
    subst hc
    exact h.sublist.subset (List.mem_cons_self _ _)

theorem suffix_append_cases :
    ∀ (x y l : List Char), l <:+ x ++ y →
      (∃ s, s <:+ x ∧ l = s ++ y) ∨ l <:+ y := by
  intro x
  induction x with
  | nil => intro y l h; right; simpa using h
  | cons a x' ih =>
    intro y l h
    rcases List.suffix_cons_iff.mp h with h | h
    · left
      exact ⟨a :: x', List.suffix_refl _, by simpa using h⟩
    · rcases ih y l h with ⟨s, hs, rfl⟩ | h
      · exact Or.inl ⟨s, hs.trans (List.suffix_cons a x'), rfl⟩
      · exact Or.inr h

theorem uniqueHashSuffix :
    ∀ (pre : List Char) (post s : List Char), '#' ∉ pre → '#' ∉ post →
      s <:+ (pre ++ '#' :: post) → s.head? = some '#' → s = '#' :: post := by
  intro pre
  induction pre with
  | nil =>
    intro post s _ hpost hs hh
    rcases List.suffix_cons_iff.mp (by simpa using hs) with h | h
    · exact h
    · exact absurd (head?_mem_of_sfx h hh) hpost
  | cons a pre' ih =>
    intro post s hpre hpost hs hh
    rcases List.suffix_cons_iff.mp (by simpa using hs) with h | h
    · exfalso
      rw [h] at hh
      simp only [List.head?_cons, Option.some.injEq] at hh
      exact hpre (by simp [hh])
    · exact ih post s (fun hm => hpre (List.mem_cons_of_mem _ hm)) hpost h hh

theorem pat_not_infix_joined (p : List Char) (hp0 : p.head? = some '#') :
    ∀ (cls : List RClause),
      (∀ cl ∈ cls, ∀ z, ¬ p <+: ('#' :: hashPost cl) ++ z) →
      ¬ p <:+: joinedData cls := by
  intro cls
  induction cls with
  | nil =>
    intro _ h
    have : p = [] := by
      simpa using List.sublist_nil.mp h.sublist
    simp [this] at hp0
  | cons cl rest ih =>
    intro hcl h
    rw [joinedData_cons] at h
    obtain ⟨t, hpt, hts⟩ := List.infix_iff_prefix_suffix.mp h
    rcases suffix_append_cases _ _ _ hts with ⟨s, hs, rfl⟩ | hts'
    · cases s with
      | nil =>
        cases hrest : rest with
        | nil =>
          rw [hrest] at hpt
          simp only [tailJD, List.nil_append] at hpt
          have : p = [] := List.prefix_nil.mp hpt
          simp [this] at hp0
        | cons r rs =>
          rw [hrest] at hpt
          have hhd := head?_of_pfx hpt hp0
          simp only [List.nil_append, tailJD, List.cons_append, List.head?_cons,
            Option.some.injEq] at hhd
          exact absurd hhd (by decide)
      | cons c s' =>
        have hhd := head?_of_pfx hpt hp0
        simp only [List.cons_append, List.head?_cons, Option.some.injEq] at hhd
        subst hhd
        rw [renderCl_data] at hs
        have huniq := uniqueHashSuffix (clPre cl.op).data (hashPost cl) ('#' :: s')
          (hash_not_mem_clPre cl.op) (hash_not_mem_hashPost cl) hs rfl
        rw [huniq] at hpt
        exact hcl cl (List.mem_cons_self _ _) (tailJD rest) hpt
    · cases hrest : rest with
      | nil =>
        rw [hrest] at hts'
        simp only [tailJD] at hts'
        have ht0 : t = [] := by simpa using List.sublist_nil.mp hts'.sublist
        rw [ht0] at hpt
        have : p = [] := List.prefix_nil.mp hpt
        simp [this] at hp0
      | cons r rs =>
        rw [hrest] at hts'
        simp only [tailJD] at hts'
        rcases suffix_append_cases _ _ _ hts' with ⟨s, hs, rfl⟩ | hts2
        · cases s with
          | nil =>
            have : p <:+: joinedData (r :: rs) := (by simpa using hpt :
              p <+: joinedData (r :: rs)).isInfix
            exact ih (fun cl2 h2 => hcl cl2 (List.mem_cons_of_mem _ (hrest ▸ h2)))
              (hrest ▸ this)
          | cons c s' =>
            have hhd := head?_of_pfx hpt hp0
            simp only [List.cons_append, List.head?_cons, Option.some.injEq] at hhd
            subst hhd
            have hmem := head?_mem_of_sfx hs
              (show (('#' : Char) :: s').head? = some '#' from rfl)
            exact absurd hmem (by decide)
        · have : p <:+: joinedData (r :: rs) := hpt.isInfix.trans hts2.isInfix
          exact ih (fun cl2 h2 => hcl cl2 (List.mem_cons_of_mem _ (hrest ▸ h2)))
            (hrest ▸ this)

theorem hashPost_no_attr0 (cl : RClause) (h : 1 ≤ cl.ai) (q z : List Char) :
    ¬ ('#' :: 'a' :: 't' :: 't' :: 'r' :: '0' :: q) <+: ('#' :: hashPost cl) ++ z := by
  intro hp
  obtain ⟨d, rest, hd, hna, _, hnz⟩ := natStr_spec cl.ai
  simp only [hashPost, hna, List.cons_append, List.append_assoc,
    List.cons_prefix_cons] at hp
  obtain ⟨_, _, _, _, _, h0, _⟩ := hp
  exact hnz h ((digitChar_eq_zero_iff hd).mp h0.symm)

theorem hashPost_attr0_no_eq (cl : RClause) (hai : cl.ai = 0)
    (hop : cl.op ≠ .opEquals) (z : List Char) :
    ¬ ("#attr0 =").data <+: ('#' :: hashPost cl) ++ z := by
  intro hp
  rw [show ("#attr0 =").data = ['#', 'a', 't', 't', 'r', '0', ' ', '='] from rfl] at hp
  obtain ⟨op, ai, vi⟩ := cl
  simp only at hai
  subst hai
  cases op <;>
    simp_all [clPost, hashPost, show (natStr 0).data = ['0'] from rfl,
      String.data_append, List.cons_append, List.append_assoc,
      List.cons_prefix_cons, List.nil_append]

/-- Negative occurrence lemma: if every clause of a compiled expression has a
positive name-placeholder index, the text `#attr0` does not occur in it. -/
theorem attr0_not_in_joined (cls : List RClause)
    (h : ∀ cl ∈ cls, 1 ≤ cl.ai) :
    ¬ ("#attr0").data <:+: joinedData cls := by
  have := pat_not_infix_joined ("#attr0").data rfl cls
    (fun cl hm z => by
      have := hashPost_no_attr0 cl (h cl hm) [] z
      simpa using this)
  exact this

/-- Negative occurrence lemma for the planner's equality detection: if the
first clause carries index 0 but is not an equality, and all later clauses
have positive indices, then the text `#attr0 =` does not occur. -/
theorem attr0_eq_not_in_joined (cl0 : RClause) (rest : List RClause)
    (hai : cl0.ai = 0) (hop : cl0.op ≠ .opEquals)
    (h : ∀ cl ∈ rest, 1 ≤ cl.ai) :
    ¬ ("#attr0 =").data <:+: joinedData (cl0 :: rest) := by
  apply pat_not_infix_joined ("#attr0 =").data rfl
  intro cl hm z
  rcases List.mem_cons.mp hm with rfl | hm
  · exact hashPost_attr0_no_eq cl hai hop z
  · have := hashPost_no_attr0 cl (h cl hm) [' ', '='] z
    simpa using this

theorem goContains_eq_false_iff (s sub : String) :
    goContains s sub = false ↔ ¬ sub.data <:+: s.data := by
  simp [goContains]

theorem goContains_of_pfx {s sub : String} (h : sub.data <+: s.data) :
    goContains s sub = true := by
  simp [goContains]
  exact h.isInfix

/-! ### The query/scan planner: `Model.scanTable`

Model of `Model.scanTable` (part_003:1257–1411).  The fields consumed from
the TUI model are passed as parameters: `m.currentTable`, `m.tableInfo`
(`nil`-able), `m.pageSize`, and the compiled filter fields `m.filterExpr`,
`m.filterNames`, `m.filterValues` — the last is `nil`-able, which the code
checks, so it is an `Option`.  Go map iteration (used to search for the
`:val0` placeholder) is modeled in insertion order; for compiler-produced
maps at most one key matches the searched prefix, so the order is
immaterial there. -/

/-- Index metadata (`dynamo.IndexInfo`), the fields the planner reads. -/
structure IndexInfoM where
  name : String
  partitionKey : String
deriving DecidableEq

/-- Table metadata (`dynamo.TableInfo`), the fields the planner reads. -/
structure TableInfoM where
  partitionKey : String
  gsis : List IndexInfoM
deriving DecidableEq

/-- Query parameters (`dynamo.QueryInput`); an empty `indexName` means the
base table, exactly as in the Go struct. -/
structure QueryInputM where
  tableName : String
  indexName : String
  keyConditionExpression : String
  filterExpression : String
  expressionAttributeNames : List (String × String)
  expressionValues : List (String × GoValue)
  limit : Nat
  scanIndexForward : Bool
deriving DecidableEq

/-- The read operation `Model.scanTable` decides to execute. -/
inductive ScanAction where
  | queryOp (q : QueryInputM)
  | continuousScanOp (tableName : String) (targetCount : Nat)
      (filterExpr : String) (filterNames : List (String × String))
      (filterValues : Option (List (String × GoValue)))
  | simpleScanOp (tableName : String) (limit : Nat) (filterExpr : String)
      (filterNames : List (String × String))
      (filterValues : Option (List (String × GoValue)))
deriving DecidableEq

/-- Model of `Model.scanTable` (part_003:1257–1411): decide between an
indexed key-lookup query (base table first, then the GSIs in order), a
continuous filtered scan, and a plain paged scan. -/
def scanTable (currentTable : String) (tableInfo : Option TableInfoM)
    (pageSize : Nat) (filterExpr : String)
    (filterNames : List (String × String))
    (filterValues : Option (List (String × GoValue))) : ScanAction :=
  let attempt : Option QueryInputM :=
    match tableInfo, filterValues with
    | some info, some vals =>
      if filterExpr = "" then none
      else
        match mapGet filterNames "#attr0" with
        | none => none
        | some attrName =>
          let firstConditionIsEquals :=
            goContains filterExpr "#attr0 = :" ||
              (goContains filterExpr "#attr0 =" && !goContains filterExpr "#attr0 <>")
          if firstConditionIsEquals then
            let firstPlaceholder :=
              match vals.find? (fun kv => goHasPrefix kv.1 ":val0") with
              | some kv => kv.1
              | none => ((vals.head?).map Prod.fst).getD ""
            let value := (mapGet vals firstPlaceholder).getD GoValue.null
            let hasMulti := goContains filterExpr " AND "
            let parts := goSplitN2 filterExpr " AND "
            let additional :
                String × List (String × String) × List (String × GoValue) :=
              if hasMulti then
                match parts with
                | _ :: after :: _ =>
                  (after,
                   filterNames.filter (fun kv => decide (kv.1 ≠ "#attr0")),
                   vals.filter (fun kv => decide (kv.1 ≠ firstPlaceholder)))
                | _ => ("", [], [])
              else ("", [], [])
          if attrName = info.partitionKey then
            some { tableName := currentTable, indexName := "",
                   keyConditionExpression := "#pk = " ++ firstPlaceholder,
                   filterExpression := additional.1,
                   expressionAttributeNames :=
                     ("#pk", info.partitionKey) ::
                       (if additional.1 ≠ "" then additional.2.1 else []),
                   expressionValues :=
                     (firstPlaceholder, value) ::
                       (if additional.1 ≠ "" then additional.2.2 else []),
                   limit := pageSize, scanIndexForward := true }
          else
            match info.gsis.find? (fun gsi => decide (gsi.partitionKey = attrName)) with
            | some gsi =>
              some { tableName := currentTable, indexName := gsi.name,
                     keyConditionExpression := "#pk = " ++ firstPlaceholder,
                     filterExpression := additional.1,
                     expressionAttributeNames :=
                       ("#pk", attrName) ::
                         (if additional.1 ≠ "" then additional.2.1 else []),
                     expressionValues :=
                       (firstPlaceholder, value) ::
                         (if additional.1 ≠ "" then additional.2.2 else []),
                     limit := pageSize, scanIndexForward := true }
            | none => none
          else none
    | _, _ => none
  match attempt with
  | some q => .queryOp q
  | none =>
    if filterExpr ≠ "" then
      .continuousScanOp currentTable pageSize filterExpr filterNames filterValues
    else
      .simpleScanOp currentTable pageSize filterExpr filterNames filterValues

/-! ### The continuous scan executor: `Client.ScanTableContinuous`

Model of `Client.ScanTableContinuous` (client.go:357–440).  The DynamoDB
`Scan` page primitive is abstracted by a function from the current cursor to
a page outcome; cursors are abstracted as page indices (`none` = start of
collection on input, collection exhausted on output).  The context is
abstracted by a cancellation predicate on the loop iteration of its
top-of-loop check; a read that fails while the context is cancelled models a
page read interrupted in flight. -/

/-- Outcome of one page read: a page (matching items, scanned count,
continuation cursor), or an error, recording whether the context was
cancelled (`ctx.Err() != nil`) when the error surfaced. -/
inductive ReadOutcome (α : Type) where
  | ok (items : List α) (scanned : Nat) (next : Option Nat)
  | fail (ctxCancelled : Bool)
deriving DecidableEq

/-- Result struct `ContinuousScanResult` of client.go. -/
structure ContinuousScanResult (α : Type) where
  items : List α
  lastEvaluatedKey : Option Nat
  totalScanned : Nat
  hasMore : Bool
  timedOut : Bool
deriving DecidableEq

/-- Overall outcome of the executor: a result, a propagated scan error
(`return nil, err`), or exhaustion of the model's unrolling fuel (never
reached when the fuel exceeds the page count of a finite collection). -/
inductive ContOutcome (α : Type) where
  | result (r : ContinuousScanResult α)
  | scanError
  | fuelOut
deriving DecidableEq

/-- The accumulation loop of `ScanTableContinuous`: check cancellation at the
top, read one page, append its items and add its scanned count, advance the
cursor, and stop with success when the target is reached or the cursor is
exhausted. -/
def contLoop {α : Type} (read : Option Nat → ReadOutcome α)
    (cancelled : Nat → Bool) (targetCount : Nat) :
    Nat → Nat → Option Nat → List α → Nat → ContOutcome α
  | 0, _, _, _, _ => .fuelOut
  | fuel + 1, checkIdx, lastKey, allItems, totalScanned =>
    if cancelled checkIdx then
      .result ⟨allItems, lastKey, totalScanned, lastKey.isSome, true⟩
    else
      match read lastKey with
      | .fail ctxC =>
        if ctxC then .result ⟨allItems, lastKey, totalScanned, true, true⟩
        else .scanError
      | .ok items scanned next =>
        let allItems := allItems ++ items
        let totalScanned := totalScanned + scanned
        if targetCount ≤ allItems.length ∨ next = none then
          .result ⟨allItems, next, totalScanned, next.isSome, false⟩
        else contLoop read cancelled targetCount fuel (checkIdx + 1) next
          allItems totalScanned

/-- Model of `Client.ScanTableContinuous` (client.go:357–440). -/
def ScanTableContinuous {α : Type} (read : Option Nat → ReadOutcome α)
    (cancelled : Nat → Bool) (targetCount : Nat) (startKey : Option Nat)
    (fuel : Nat) : ContOutcome α :=
  contLoop read cancelled targetCount fuel 0 startKey [] 0

/-- A fixed, unchanging collection: a list of pages, each a list of matching
items with the page's scanned-records count. -/
def pageRead {α : Type} (table : List (List α × Nat)) (cursor : Option Nat) :
    ReadOutcome α :=
  let k := cursor.getD 0
  match table[k]? with
  | some page => .ok page.1 page.2 (if k + 1 < table.length then some (k + 1) else none)
  | none => .ok [] 0 none

/-- All items of a list of pages, in page order. -/
def pagesItems {α : Type} (ps : List (List α × Nat)) : List α :=
  ps.foldr (fun p r => p.1 ++ r) []

/-- Total scanned count of a list of pages. -/
def pagesScanned {α : Type} (ps : List (List α × Nat)) : Nat :=
  ps.foldr (fun p r => p.2 + r) 0

/-- Items of pages `k, …, q-1` of a collection. -/
def sliceItems {α : Type} (table : List (List α × Nat)) (k q : Nat) : List α :=
  pagesItems ((table.take q).drop k)

/-- Scanned count of pages `k, …, q-1` of a collection. -/
def sliceScanned {α : Type} (table : List (List α × Nat)) (k q : Nat) : Nat :=
  pagesScanned ((table.take q).drop k)

/-! ### `interfaceToAttributeValue` and region discovery -/

/-- DynamoDB attribute values producible by `interfaceToAttributeValue`
(client.go:442–458): a string, a number (rendered from the Go value), or a
boolean.  The function has no case producing a NULL-typed attribute value. -/
inductive AttrValue where
  | S (s : String)
  | N (lit : String)
  | BOOL (b : Bool)
deriving DecidableEq

/-- Model of `interfaceToAttributeValue` (client.go:442–458): strings map to
`S`, numbers to `N` (the numeric rendering is abstracted by the literal the
compiler accepted), booleans to `BOOL`; anything else — in particular the Go
`nil` stored for the literal `"null"` — falls into the `default` branch,
which renders the value with `fmt.Sprintf` as a string (`nil` prints as
`<nil>`). -/
def interfaceToAttributeValue : GoValue → AttrValue
  | .str s => .S s
  | .num lit => .N lit
  | .boolean b => .BOOL b
  | .null => .S "<nil>"

/-- The fixed region catalog `AWSRegions` of client.go. -/
def AWSRegions : List String :=
  ["us-east-1", "us-east-2", "us-west-1", "us-west-2", "af-south-1",
   "ap-east-1", "ap-south-1", "ap-south-2", "ap-northeast-1", "ap-northeast-2",
   "ap-northeast-3", "ap-southeast-1", "ap-southeast-2", "ap-southeast-3",
   "ap-southeast-4", "ca-central-1", "eu-central-1", "eu-central-2",
   "eu-west-1", "eu-west-2", "eu-west-3", "eu-south-1", "eu-south-2",
   "eu-north-1", "il-central-1", "me-south-1", "me-central-1", "sa-east-1"]

/-- Result record `RegionInfo` of client.go. -/
structure RegionInfo where
  region : String
  tableCount : Nat
  tables : List String
deriving DecidableEq

/-- Model of the AWS fan-out path of `DiscoverRegionsWithTables`
(client.go:85–128, the `useLocal = false` branch).  A probe is abstracted by
a function from the region to `none` (any error while loading the region
config or listing tables — the goroutine just returns) or `some names` (the
bounded listing).  The mutex-guarded appends of the concurrent goroutines
build one aggregate collection whose multiset content is deterministic;
it is modeled in catalog order.  The function always returns successfully
(`return results, nil`), modeled with `Except`. -/
def DiscoverRegionsWithTablesAWS (probe : String → Option (List String)) :
    Except String (List RegionInfo) :=
  .ok (AWSRegions.filterMap fun r =>
    match probe r with
    | none => none
    | some tables =>
      if 0 < tables.length then
        some ⟨r, tables.length, tables⟩
      else none)

theorem pagesItems_append {α : Type} (a b : List (List α × Nat)) :
    pagesItems (a ++ b) = pagesItems a ++ pagesItems b := by
  induction a with
  | nil => simp [pagesItems]
  | cons p ps ih => simp [pagesItems, List.foldr_cons, List.append_assoc]
                    simpa [pagesItems] using ih

theorem pagesScanned_append {α : Type} (a b : List (List α × Nat)) :
    pagesScanned (a ++ b) = pagesScanned a + pagesScanned b := by
  induction a with
  | nil => simp [pagesScanned]
  | cons p ps ih => simp [pagesScanned, List.foldr_cons] at ih ⊢
                    omega

theorem sliceItems_self {α : Type} (table : List (List α × Nat)) (k : Nat) :
    sliceItems table k k = [] := by
  have h : (table.take k).length ≤ k := by
    simp [List.length_take]
  simp [sliceItems, List.drop_eq_nil_of_le h, pagesItems]

theorem sliceScanned_self {α : Type} (table : List (List α × Nat)) (k : Nat) :
    sliceScanned table k k = 0 := by
  have h : (table.take k).length ≤ k := by
    simp [List.length_take]
  simp [sliceScanned, List.drop_eq_nil_of_le h, pagesScanned]

theorem sliceItems_cons {α : Type} {table : List (List α × Nat)} {k q : Nat}
    {page : List α × Nat} (h : table[k]? = some page) (hq : k < q) :
    sliceItems table k q = page.1 ++ sliceItems table (k + 1) q := by
  have hk : k < table.length := by
    exact List.getElem?_eq_some_iff.mp h |>.1
  have hk2 : k < (table.take q).length := by
    simp [List.length_take]; omega
  have hdrop := List.drop_eq_getElem_cons hk2
  have hget : (table.take q)[k] = page := by
    rw [List.getElem_take]
    exact (List.getElem?_eq_some_iff.mp h).2
  simp [sliceItems, hdrop, hget, pagesItems]

theorem sliceScanned_cons {α : Type} {table : List (List α × Nat)} {k q : Nat}
    {page : List α × Nat} (h : table[k]? = some page) (hq : k < q) :
    sliceScanned table k q = page.2 + sliceScanned table (k + 1) q := by
  have hk : k < table.length := by
    exact List.getElem?_eq_some_iff.mp h |>.1
  have hk2 : k < (table.take q).length := by
    simp [List.length_take]; omega
  have hdrop := List.drop_eq_getElem_cons hk2
  have hget : (table.take q)[k] = page := by
    rw [List.getElem_take]
    exact (List.getElem?_eq_some_iff.mp h).2
  simp [sliceScanned, hdrop, hget, pagesScanned]

theorem sliceItems_glue {α : Type} (table : List (List α × Nat)) {q1 q2 : Nat}
    (h : q1 ≤ q2) :
    sliceItems table 0 q1 ++ sliceItems table q1 q2 = sliceItems table 0 q2 := by
  have h1 : table.take q1 = (table.take q2).take q1 := by
    rw [List.take_take, Nat.min_eq_left h]
  calc sliceItems table 0 q1 ++ sliceItems table q1 q2
      = pagesItems ((table.take q2).take q1) ++ pagesItems ((table.take q2).drop q1) := by
        simp [sliceItems, List.drop_zero, h1]
    _ = pagesItems ((table.take q2).take q1 ++ (table.take q2).drop q1) := by
        rw [pagesItems_append]
    _ = sliceItems table 0 q2 := by
        rw [List.take_append_drop]; simp [sliceItems, List.drop_zero]

theorem sliceScanned_glue {α : Type} (table : List (List α × Nat)) {q1 q2 : Nat}
    (h : q1 ≤ q2) :
    sliceScanned table 0 q1 + sliceScanned table q1 q2 = sliceScanned table 0 q2 := by
  have h1 : table.take q1 = (table.take q2).take q1 := by
    rw [List.take_take, Nat.min_eq_left h]
  calc sliceScanned table 0 q1 + sliceScanned table q1 q2
      = pagesScanned ((table.take q2).take q1) + pagesScanned ((table.take q2).drop q1) := by
        simp [sliceScanned, List.drop_zero, h1]
    _ = pagesScanned ((table.take q2).take q1 ++ (table.take q2).drop q1) := by
        rw [pagesScanned_append]
    _ = sliceScanned table 0 q2 := by
        rw [List.take_append_drop]; simp [sliceScanned, List.drop_zero]

theorem sliceItems_full {α : Type} (table : List (List α × Nat)) {q : Nat}
    (h : table.length ≤ q) : sliceItems table 0 q = pagesItems table := by
  simp [sliceItems, List.take_of_length_le h, List.drop_zero]

theorem sliceScanned_full {α : Type} (table : List (List α × Nat)) {q : Nat}
    (h : table.length ≤ q) : sliceScanned table 0 q = pagesScanned table := by
  simp [sliceScanned, List.take_of_length_le h, List.drop_zero]

theorem sliceItems_length_le {α : Type} (table : List (List α × Nat)) (q : Nat) :
    (sliceItems table 0 q).length ≤ (pagesItems table).length := by
  conv_rhs => rw [show table = table.take q ++ table.drop q from (List.take_append_drop q table).symm]
  rw [pagesItems_append]
  simp [sliceItems, List.drop_zero]

theorem pageRead_cases {α : Type} (table : List (List α × Nat)) (cur : Option Nat) :
    (∃ page, table[cur.getD 0]? = some page ∧
      pageRead table cur = .ok page.1 page.2
        (if cur.getD 0 + 1 < table.length then some (cur.getD 0 + 1) else none)) ∨
    (table[cur.getD 0]? = none ∧ table.length ≤ cur.getD 0 ∧
      pageRead table cur = .ok [] 0 none) := by
  cases h : table[cur.getD 0]? with
  | some page =>
    left
    exact ⟨page, rfl, by simp [pageRead, h]⟩
  | none =>
    right
    exact ⟨rfl, List.getElem?_eq_none_iff.mp h, by simp [pageRead, h]⟩

theorem contLoop_succ {α : Type} (read : Option Nat → ReadOutcome α)
    (cancelled : Nat → Bool) (target fuel i : Nat) (cur : Option Nat)
    (acc : List α) (sc : Nat) :
    contLoop read cancelled target (fuel + 1) i cur acc sc =
      if cancelled i then .result ⟨acc, cur, sc, cur.isSome, true⟩
      else
        match read cur with
        | .fail ctxC =>
          if ctxC then .result ⟨acc, cur, sc, true, true⟩ else .scanError
        | .ok items scanned next =>
          if target ≤ (acc ++ items).length ∨ next = none then
            .result ⟨acc ++ items, next, sc + scanned, next.isSome, false⟩
          else contLoop read cancelled target fuel (i + 1) next (acc ++ items)
            (sc + scanned) := rfl

theorem contLoop_pure_timedOut {α : Type} (table : List (List α × Nat))
    (cancelled : Nat → Bool) (target : Nat) :
    ∀ fuel i cur acc sc r,
      contLoop (pageRead table) cancelled target fuel i cur acc sc = .result r →
      r.timedOut = true →
      cur.getD 0 ≤ r.lastEvaluatedKey.getD 0 ∧
      r.items = acc ++ sliceItems table (cur.getD 0) (r.lastEvaluatedKey.getD 0) ∧
      r.totalScanned = sc + sliceScanned table (cur.getD 0) (r.lastEvaluatedKey.getD 0) := by
  intro fuel
  induction fuel with
  | zero => intro i cur acc sc r hr; simp [contLoop] at hr
  | succ fuel ih =>
    intro i cur acc sc r hr ht
    rw [contLoop_succ] at hr
    by_cases hc : cancelled i
    · rw [if_pos hc] at hr
      simp only [ContOutcome.result.injEq] at hr
      subst hr
      simp [sliceItems_self, sliceScanned_self]
    · rw [if_neg hc] at hr
      rcases pageRead_cases table cur with ⟨page, hpg, hok⟩ | ⟨hpg, hlen, hok⟩
      · rw [hok] at hr
        dsimp only at hr
        by_cases hstop : target ≤ (acc ++ page.1).length ∨
            (if cur.getD 0 + 1 < table.length then some (cur.getD 0 + 1) else none) = none
        · rw [if_pos hstop] at hr
          simp only [ContOutcome.result.injEq] at hr
          subst hr
          simp at ht
        · rw [if_neg hstop] at hr
          have hnext : (if cur.getD 0 + 1 < table.length
              then some (cur.getD 0 + 1) else none) = some (cur.getD 0 + 1) := by
            by_cases h1 : cur.getD 0 + 1 < table.length
            · simp [h1]
            · exact absurd (Or.inr (by simp [h1])) hstop
          rw [hnext] at hr
          obtain ⟨hq, hitems, hsc⟩ :=
            ih (i + 1) (some (cur.getD 0 + 1)) (acc ++ page.1) (sc + page.2) r hr ht
          simp only [Option.getD_some] at hq hitems hsc
          have hlt : cur.getD 0 < r.lastEvaluatedKey.getD 0 := by omega
          refine ⟨by omega, ?_, ?_⟩
          · rw [hitems, sliceItems_cons hpg hlt]
            simp [List.append_assoc]
          · rw [hsc, sliceScanned_cons hpg hlt]
            omega
      · rw [hok] at hr
        dsimp only at hr
        rw [if_pos (Or.inr rfl)] at hr
        simp only [ContOutcome.result.injEq] at hr
        subst hr
        simp at ht

theorem contLoop_pure_nocancel {α : Type} (table : List (List α × Nat)) (target : Nat) :
    ∀ fuel i cur acc sc, table.length - cur.getD 0 < fuel →
      ∃ q lek, cur.getD 0 ≤ q ∧
        (lek = some q ∧ target ≤ (acc ++ sliceItems table (cur.getD 0) q).length ∨
         lek = none ∧ table.length ≤ q) ∧
        contLoop (pageRead table) (fun _ => false) target fuel i cur acc sc =
          .result ⟨acc ++ sliceItems table (cur.getD 0) q, lek,
            sc + sliceScanned table (cur.getD 0) q, lek.isSome, false⟩ := by
  intro fuel
  induction fuel with
  | zero => intro i cur acc sc h; omega
  | succ fuel ih =>
    intro i cur acc sc hfuel
    have hnc : ((fun (_ : Nat) => false) i) = false := rfl
    rcases pageRead_cases table cur with ⟨page, hpg, hok⟩ | ⟨hpg, hlen, hok⟩
    · by_cases hnext : cur.getD 0 + 1 < table.length
      · by_cases hstop : target ≤ (acc ++ page.1).length
        · refine ⟨cur.getD 0 + 1, some (cur.getD 0 + 1), by omega, ?_, ?_⟩
          · left
            refine ⟨rfl, ?_⟩
            rw [sliceItems_cons hpg (by omega), sliceItems_self]
            simpa using hstop
          · rw [contLoop_succ, if_neg (by simp), hok]
            dsimp only
            rw [if_pos (Or.inl hstop)]
            rw [sliceItems_cons hpg (by omega), sliceItems_self,
              sliceScanned_cons hpg (by omega), sliceScanned_self]
            simp [hnext]
        · obtain ⟨q, lek, hq, hcond, heq⟩ :=
            ih (i + 1) (some (cur.getD 0 + 1)) (acc ++ page.1) (sc + page.2)
              (by simp only [Option.getD_some]; omega)
          simp only [Option.getD_some] at hq hcond heq
          have hlt : cur.getD 0 < q := by omega
          refine ⟨q, lek, by omega, ?_, ?_⟩
          · rcases hcond with ⟨h1, h2⟩ | h1
            · left
              refine ⟨h1, ?_⟩
              rw [sliceItems_cons hpg hlt]
              simpa [List.append_assoc] using h2
            · right; exact h1
          · rw [contLoop_succ, if_neg (by simp), hok]
            dsimp only
            rw [if_neg (show ¬(target ≤ (acc ++ page.1).length ∨
                (if cur.getD 0 + 1 < table.length then some (cur.getD 0 + 1)
                  else none) = none) from by
              simp only [not_or]
              exact ⟨hstop, by simp [hnext]⟩)]
            rw [if_pos hnext]
            rw [sliceItems_cons hpg hlt, sliceScanned_cons hpg hlt]
            rw [heq]
            simp [List.append_assoc, Nat.add_assoc]
      · refine ⟨cur.getD 0 + 1, none, by omega, Or.inr ⟨rfl, by omega⟩, ?_⟩
        rw [contLoop_succ, if_neg (by simp), hok]
        dsimp only
        rw [if_pos (by simp [hnext] : target ≤ (acc ++ page.1).length ∨
          (if cur.getD 0 + 1 < table.length then some (cur.getD 0 + 1) else none) = none)]
        rw [sliceItems_cons hpg (by omega), sliceItems_self,
          sliceScanned_cons hpg (by omega), sliceScanned_self]
        simp [hnext]
    · refine ⟨cur.getD 0, none, Nat.le_refl _, Or.inr ⟨rfl, hlen⟩, ?_⟩
      rw [contLoop_succ, if_neg (by simp), hok]
      dsimp only
      rw [if_pos (Or.inr rfl)]
      rw [sliceItems_self, sliceScanned_self]

/-! ### Claims about the continuous scan executor -/

theorem contLoop_hasMore_invariant {α : Type} (read : Option Nat → ReadOutcome α)
    (cancelled : Nat → Bool) (target : Nat)
    (hread : read none ≠ .fail true) :
    ∀ fuel i cur acc sc r,
      contLoop read cancelled target fuel i cur acc sc = .result r →
      r.hasMore = r.lastEvaluatedKey.isSome := by
  intro fuel
  induction fuel with
  | zero => intro i cur acc sc r hr; simp [contLoop] at hr
  | succ fuel ih =>
    intro i cur acc sc r hr
    rw [contLoop_succ] at hr
    by_cases hc : cancelled i
    · rw [if_pos hc] at hr
      simp only [ContOutcome.result.injEq] at hr
      subst hr
      rfl
    · rw [if_neg hc] at hr
      cases hro : read cur with
      | fail ctxC =>
        rw [hro] at hr
        dsimp only at hr
        by_cases hcc : ctxC = true
        · rw [if_pos hcc] at hr
          simp only [ContOutcome.result.injEq] at hr
          subst hr
          cases cur with
          | none => exact absurd (hcc ▸ hro) hread
          | some k => rfl
        · rw [if_neg hcc] at hr
          simp at hr
      | ok items scanned next =>
        rw [hro] at hr
        dsimp only at hr
        by_cases hstop : target ≤ (acc ++ items).length ∨ next = none
        · rw [if_pos hstop] at hr
          simp only [ContOutcome.result.injEq] at hr
          subst hr
          rfl
        · rw [if_neg hstop] at hr
          exact ih (i + 1) next (acc ++ items) (sc + scanned) r hr

/-- Claim C3 (amended): in every `ContinuousScanResult` returned by
`ScanTableContinuous` the `HasMore` flag equals `LastEvaluatedKey != nil`,
provided the store never reports a context-cancelled read failure at the nil
cursor (i.e. the very first page read of a from-the-start invocation is not
interrupted); the completed, top-of-loop-timeout, and later mid-flight
cancellation cases all satisfy the invariant unconditionally. -/
theorem C3_hasMore_eq_lastKey_isSome {α : Type} (read : Option Nat → ReadOutcome α)
    (cancelled : Nat → Bool) (target : Nat) (startKey : Option Nat) (fuel : Nat)
    (r : ContinuousScanResult α)
    (hread : read none ≠ .fail true)
    (h : ScanTableContinuous read cancelled target startKey fuel = .result r) :
    r.hasMore = r.lastEvaluatedKey.isSome :=
  contLoop_hasMore_invariant read cancelled target hread fuel 0 startKey [] 0 r h

/-- Witness for C3: a concrete exhausting run of the executor satisfies the
invariant. -/
theorem C3_hasMore_witness :
    (⟨[0], none, 1, false, false⟩ : ContinuousScanResult Nat).hasMore =
      (⟨[0], none, 1, false, false⟩ : ContinuousScanResult Nat).lastEvaluatedKey.isSome :=
  C3_hasMore_eq_lastKey_isSome (pageRead [([0], 1)]) (fun _ => false) 5 none 3
    ⟨[0], none, 1, false, false⟩ (by decide) (by decide)

/-- Counterexample for C3 as stated: when cancellation interrupts the very
first in-flight page read of a nil-cursor invocation, the code hardcodes
`HasMore = true` while `LastEvaluatedKey` is still nil, so the claimed
invariant fails. -/
theorem C3_counterexample :
    ScanTableContinuous (fun _ => (ReadOutcome.fail true : ReadOutcome Nat))
        (fun _ => false) 5 none 3 =
      .result ⟨[], none, 0, true, true⟩ ∧
    ((⟨[], none, 0, true, true⟩ : ContinuousScanResult Nat).hasMore ≠
      (⟨[], none, 0, true, true⟩ : ContinuousScanResult Nat).lastEvaluatedKey.isSome) := by
  constructor
  · decide
  · decide

/-- Claim C4 (amended): cancellation is checked at the top of the loop, but
the cancellable context is also passed to the in-flight page read and can
abort it.  A page read aborted by cancellation contributes nothing: the
loop returns the previously accumulated items and scanned count unchanged,
with `TimedOut = true`.  Only a page read that completes despite
cancellation has its items appended to the accumulator and its scanned
count added to `TotalScanned` before the next deadline check exits the
loop. -/
theorem C4_inflight_read_outcomes {α : Type} (read : Option Nat → ReadOutcome α)
    (cancelled : Nat → Bool) (target fuel i : Nat) (cur : Option Nat)
    (acc items : List α) (sc scanned k' : Nat)
    (hci : cancelled i = false)
    (hcj : ∀ j, i < j → cancelled j = true) :
    (read cur = .fail true →
      contLoop read cancelled target (fuel + 1) i cur acc sc =
        .result ⟨acc, cur, sc, true, true⟩) ∧
    (read cur = .ok items scanned (some k') →
      (acc ++ items).length < target →
      contLoop read cancelled target (fuel + 2) i cur acc sc =
        .result ⟨acc ++ items, some k', sc + scanned, true, true⟩) := by
  constructor
  · intro hread
    rw [contLoop_succ, if_neg (by simp [hci]), hread]
    dsimp only
    rw [if_pos rfl]
  · intro hread hlen
    rw [show fuel + 2 = (fuel + 1) + 1 from rfl, contLoop_succ,
      if_neg (by simp [hci]), hread]
    dsimp only
    rw [if_neg (by simp only [not_or]; exact ⟨Nat.not_le.mpr hlen, by simp⟩)]
    rw [contLoop_succ, if_pos (hcj (i + 1) (by omega))]
    rfl

/-- Counterexample for C4 as stated: cancellation does interrupt an
in-flight page read (the cancellable context is passed to the store call),
and the interrupted page is dropped, not appended.  In this run the first
page completes with item 7, then cancellation aborts the in-flight read of
the second page: the result still holds only item 7 and one scanned record
— nothing from the interrupted page was applied. -/
theorem C4_counterexample :
    ScanTableContinuous (fun cur =>
        match cur with
        | none => (ReadOutcome.ok [7] 1 (some 1) : ReadOutcome Nat)
        | some _ => ReadOutcome.fail true)
      (fun _ => false) 5 none 9 =
      .result ⟨[7], some 1, 1, true, true⟩ := by
  decide

/-- Witness for C4 (amended), one concrete run per outcome: an aborted
in-flight read returns the accumulator unchanged; a completed read under
mid-flight cancellation is applied before the next check exits. -/
theorem C4_witness :
    contLoop (fun _ => (ReadOutcome.fail true : ReadOutcome Nat))
        (fun j => decide (1 ≤ j)) 5 1 0 (some 1) [7] 1 =
      .result ⟨[7], some 1, 1, true, true⟩ ∧
    contLoop (fun _ => (ReadOutcome.ok [7] 3 (some 1) : ReadOutcome Nat))
        (fun j => decide (1 ≤ j)) 5 2 0 none [] 0 =
      .result ⟨[7], some 1, 3, true, true⟩ :=
  ⟨(C4_inflight_read_outcomes (fun _ => .fail true) (fun j => decide (1 ≤ j))
      5 0 0 (some 1) [7] [] 1 0 0 (by decide)
      (fun j hj => by simp; omega)).1 rfl,
   (C4_inflight_read_outcomes (fun _ => .ok [7] 3 (some 1))
      (fun j => decide (1 ≤ j)) 5 0 0 none [] [7] 0 3 1 (by decide)
      (fun j hj => by simp; omega)).2 rfl (by decide)⟩

/-- Claim C7: with no cancellation, scanning a collection whose matching
items are exhausted before the target is reached returns all items, an
absent cursor and `TimedOut = false`; and, at every step, the loop stops
with success exactly when the accumulated items reach the target or the
continuation cursor is absent. -/
theorem C7_scan_exhaustion {α : Type} (table : List (List α × Nat))
    (target fuel : Nat)
    (htar : (pagesItems table).length < target) (hfuel : table.length < fuel) :
    ScanTableContinuous (pageRead table) (fun _ => false) target none fuel =
      .result ⟨pagesItems table, none, pagesScanned table, false, false⟩ ∧
    (∀ fuel2 i cur acc sc (items : List α) scanned next,
      pageRead table cur = .ok items scanned next →
      table.length - cur.getD 0 < fuel2 + 1 →
      (contLoop (pageRead table) (fun _ => false) target (fuel2 + 1) i cur acc sc =
          .result ⟨acc ++ items, next, sc + scanned, next.isSome, false⟩ ↔
        (target ≤ (acc ++ items).length ∨ next = none))) := by
  constructor
  · obtain ⟨q, lek, hq, hcond, heq⟩ :=
      contLoop_pure_nocancel table target fuel 0 none [] 0 (by simp; omega)
    simp only [Option.getD_none, List.nil_append, Nat.zero_add] at hcond heq
    rcases hcond with ⟨hlek, hle⟩ | ⟨hlek, hle⟩
    · exfalso
      have := sliceItems_length_le table q
      omega
    · subst hlek
      rw [ScanTableContinuous, heq, sliceItems_full table hle,
        sliceScanned_full table hle]
      rfl
  · intro fuel2 i cur acc sc items scanned next hread hf2
    constructor
    · intro heq
      by_contra hstop
      rw [contLoop_succ, if_neg (by simp), hread] at heq
      dsimp only at heq
      rw [if_neg hstop] at heq
      simp only [not_or] at hstop
      obtain ⟨hstop1, hstop2⟩ := hstop
      rcases pageRead_cases table cur with ⟨page, hpg, hok⟩ | ⟨hpg, hlen, hok⟩
      · rw [hread] at hok
        simp only [ReadOutcome.ok.injEq] at hok
        obtain ⟨hi, hs, hn⟩ := hok
        have hnlt : cur.getD 0 + 1 < table.length := by
          by_contra hge
          rw [if_neg hge] at hn
          exact hstop2 hn
        rw [if_pos hnlt] at hn
        rw [hn] at heq
        obtain ⟨q, lek, hq, hcond, heq2⟩ :=
          contLoop_pure_nocancel table target fuel2 (i + 1) (some (cur.getD 0 + 1))
            (acc ++ items) (sc + scanned) (by simp only [Option.getD_some]; omega)
        rw [heq2] at heq
        injection heq with heqr
        have hlekq := congrArg ContinuousScanResult.lastEvaluatedKey heqr
        simp only at hlekq
        rcases hcond with ⟨hlek2, hle⟩ | ⟨hlek2, _⟩
        · rw [hlek2] at hlekq
          have hq2 : q = cur.getD 0 + 1 := Option.some.inj hlekq
          subst hq2
          simp only [Option.getD_some] at hle
          rw [sliceItems_self, List.append_nil] at hle
          exact hstop1 hle
        · rw [hlek2] at hlekq
          exact absurd hlekq (by simp)
      · rw [hread] at hok
        simp only [ReadOutcome.ok.injEq] at hok
        exact hstop2 hok.2.2
    · intro hstop
      rw [contLoop_succ, if_neg (by simp), hread]
      dsimp only
      rw [if_pos hstop]

/-- Witness for C7 at a concrete two-page collection. -/
theorem C7_witness :
    ScanTableContinuous (pageRead [([1, 2], 5), ([3], 2)]) (fun _ => false) 10 none 3 =
      .result ⟨pagesItems [([1, 2], 5), ([3], 2)], none,
        pagesScanned [([1, 2], 5), ([3], 2)], false, false⟩ :=
  (C7_scan_exhaustion [([1, 2], 5), ([3], 2)] 10 3 (by decide) (by decide)).1

/-- Claim C2 (amended): resuming a timed-out continuous scan from its
returned cursor never duplicates and never skips — the concatenation of the
two runs' items is exactly the items of an initial segment of the
collection's pages, and their `totalScanned` values sum to that segment's
scanned count.  (As originally stated — equality with a single uninterrupted
run of target N+M — the claim fails; see the counterexample.) -/
theorem C2_resumption_no_dup_no_gap {α : Type} (table : List (List α × Nat))
    (cancelled : Nat → Bool) (N M fuel1 fuel2 : Nat)
    (r1 r2 : ContinuousScanResult α)
    (hf2 : table.length < fuel2)
    (h1 : ScanTableContinuous (pageRead table) cancelled N none fuel1 = .result r1)
    (ht : r1.timedOut = true)
    (h2 : ScanTableContinuous (pageRead table) (fun _ => false) M
      r1.lastEvaluatedKey fuel2 = .result r2) :
    ∃ q, r1.items ++ r2.items = sliceItems table 0 q ∧
      r1.totalScanned + r2.totalScanned = sliceScanned table 0 q := by
  obtain ⟨hq1, hitems1, hsc1⟩ :=
    contLoop_pure_timedOut table cancelled N fuel1 0 none [] 0 r1 h1 ht
  simp only [Option.getD_none, List.nil_append, Nat.zero_add] at hitems1 hsc1
  obtain ⟨q2, lek, hq2, hcond, heq⟩ :=
    contLoop_pure_nocancel table M fuel2 0 r1.lastEvaluatedKey [] 0 (by omega)
  rw [ScanTableContinuous, heq] at h2
  injection h2 with h2r
  have hitems2 := congrArg ContinuousScanResult.items h2r
  have hsc2 := congrArg ContinuousScanResult.totalScanned h2r
  simp only [List.nil_append, Nat.zero_add] at hitems2 hsc2
  refine ⟨q2, ?_, ?_⟩
  · rw [hitems1, ← hitems2, sliceItems_glue table hq2]
  · rw [hsc1, ← hsc2, sliceScanned_glue table hq2]

/-- Counterexample for C2 as stated: over a three-page one-item-per-page
collection, a run with target 2 cancelled after one page followed by a
resumed run with target 1 yields two items and two scanned records, while
the single uninterrupted run with target 3 yields three of each. -/
theorem C2_counterexample :
    ScanTableContinuous (pageRead [([0], 1), ([1], 1), ([2], 1)])
        (fun i => decide (1 ≤ i)) 2 none 9 =
      .result ⟨[0], some 1, 1, true, true⟩ ∧
    ScanTableContinuous (pageRead [([0], 1), ([1], 1), ([2], 1)])
        (fun _ => false) 1 (some 1) 9 =
      .result ⟨[1], some 2, 1, true, false⟩ ∧
    ScanTableContinuous (pageRead [([0], 1), ([1], 1), ([2], 1)])
        (fun _ => false) 3 none 9 =
      .result ⟨[0, 1, 2], none, 3, false, false⟩ ∧
    ([0] ++ [1] ≠ [0, 1, 2]) ∧ (1 + 1 ≠ 3) := by
  refine ⟨by decide, by decide, by decide, by decide, by decide⟩

/-- Witness for C2 at the counterexample's runs: the concatenation is an
exact page-aligned initial segment of the collection. -/
theorem C2_witness :
    ∃ q, (⟨[0], some 1, 1, true, true⟩ : ContinuousScanResult Nat).items ++
        (⟨[1], some 2, 1, true, false⟩ : ContinuousScanResult Nat).items =
        sliceItems [([0], 1), ([1], 1), ([2], 1)] 0 q ∧
      (⟨[0], some 1, 1, true, true⟩ : ContinuousScanResult Nat).totalScanned +
        (⟨[1], some 2, 1, true, false⟩ : ContinuousScanResult Nat).totalScanned =
        sliceScanned [([0], 1), ([1], 1), ([2], 1)] 0 q :=
  C2_resumption_no_dup_no_gap [([0], 1), ([1], 1), ([2], 1)]
    (fun i => decide (1 ≤ i)) 2 1 9 9
    ⟨[0], some 1, 1, true, true⟩ ⟨[1], some 2, 1, true, false⟩
    (by decide) (by decide) rfl (by decide)

/-! ### Claim about region discovery -/

theorem discover_countP (probe : String → Option (List String)) :
    ∀ (regions : List String), regions.Nodup → ∀ r : String,
      ((regions.filterMap fun x =>
          match probe x with
          | none => none
          | some tables =>
            if 0 < tables.length then some (⟨x, tables.length, tables⟩ : RegionInfo)
            else none).countP
        (fun info => decide (info.region = r))) =
      (if r ∈ regions then
        (match probe r with
         | some ts => if 0 < ts.length then 1 else 0
         | none => 0)
      else 0) := by
  intro regions
  induction regions with
  | nil => intro _ r; simp
  | cons a rest ih =>
    intro hnd r
    have hna : a ∉ rest := (List.nodup_cons.mp hnd).1
    have hrest := ih (List.nodup_cons.mp hnd).2
    by_cases hra : r = a
    · subst hra
      rw [if_pos (List.mem_cons_self r rest)]
      cases hp : probe r with
      | none =>
        simp only [List.filterMap_cons, hp]
        rw [hrest r, if_neg hna]
      | some ts =>
        by_cases hlen : 0 < ts.length
        · simp only [List.filterMap_cons, hp, if_pos hlen, List.countP_cons]
          rw [hrest r, if_neg hna]
          simp [hlen]
        · simp only [List.filterMap_cons, hp, if_neg hlen]
          rw [hrest r, if_neg hna]
    · have hmem : (r ∈ a :: rest) ↔ (r ∈ rest) := by
        simp [List.mem_cons, hra]
      rw [if_congr hmem rfl rfl]
      cases hp : probe a with
      | none =>
        simp only [List.filterMap_cons, hp]
        exact hrest r
      | some ts =>
        by_cases hlen : 0 < ts.length
        · simp only [List.filterMap_cons, hp, hlen, if_pos, List.countP_cons]
          have hdec : decide ((⟨a, ts.length, ts⟩ : RegionInfo).region = r) = false := by
            simp [Ne.symm hra]
          rw [hdec]
          simp only [Bool.false_eq_true, if_false, Nat.add_zero]
          exact hrest r
        · simp only [List.filterMap_cons, hp, hlen, if_neg, ite_false]
          exact hrest r

/-- Claim C8: in the AWS path of `DiscoverRegionsWithTables`, a probe that
fails contributes nothing and never aborts the discovery (the function
always returns `nil` error); the returned collection has exactly one
`RegionInfo` per catalog region whose bounded listing returned at least one
table name, carrying that listing. -/
theorem C8_discovery_resilience (probe : String → Option (List String)) :
    ∃ rs, DiscoverRegionsWithTablesAWS probe = .ok rs ∧
      (∀ r : String,
        rs.countP (fun info => decide (info.region = r)) =
          (if r ∈ AWSRegions then
            (match probe r with
             | some ts => if 0 < ts.length then 1 else 0
             | none => 0)
          else 0)) ∧
      (∀ info ∈ rs, ∃ ts, probe info.region = some ts ∧ 0 < ts.length ∧
        info.tables = ts ∧ info.tableCount = ts.length) := by
  refine ⟨_, rfl, ?_, ?_⟩
  · intro r
    exact discover_countP probe AWSRegions (by decide) r
  · intro info hinfo
    obtain ⟨x, _, hfx⟩ := List.mem_filterMap.mp hinfo
    cases hp : probe x with
    | none => rw [hp] at hfx; simp at hfx
    | some ts =>
      rw [hp] at hfx
      dsimp only at hfx
      by_cases hlen : 0 < ts.length
      · rw [if_pos hlen] at hfx
        simp only [Option.some.injEq] at hfx
        subst hfx
        exact ⟨ts, hp, hlen, rfl, rfl⟩
      · rw [if_neg hlen] at hfx
        simp at hfx

/-! ### Claims about the filter compiler -/

theorem condValue_eq_parseValue {op : FilterOperator} (hneed : needsValue op = true)
    (h1 : op ≠ .opContains) (h2 : op ≠ .opNotContains) (h3 : op ≠ .opBeginsWith)
    (x : String) : condValue op x = parseValue x := by
  cases op <;> simp_all [condValue, needsValue]

theorem BuildExpression_single_valued {name v : String} {op : FilterOperator}
    (hname : goTrimSpace name ≠ "") (hval : goTrimSpace v ≠ "")
    (hneed : needsValue op = true) :
    BuildExpression [⟨name, op, v⟩] =
      some (condExpr op "#attr0" ":val0", [("#attr0", goTrimSpace name)],
        [(":val0", condValue op (goTrimSpace v))]) := by
  rw [BuildExpression_eq]
  have hcl : clausesOf [⟨name, op, v⟩] 0 0 = [⟨op, 0, 0⟩] := by
    simp [clausesOf, hname, hneed, hval]
  have hn : namesOf [⟨name, op, v⟩] 0 = [("#attr0", goTrimSpace name)] := by
    simp only [namesOf, hname, ite_false, if_neg]
    rfl
  have hv : valsOf [⟨name, op, v⟩] 0 = [(":val0", condValue op (goTrimSpace v))] := by
    simp only [valsOf, hname, hneed, hval, ite_false, ite_true, if_neg, if_pos]
    rfl
  rw [hcl, hn, hv]
  simp only [goJoin, renderCl, hneed, List.map_cons, List.map_nil, ite_true,
    if_pos, List.cons_ne_nil, ite_false, if_neg, not_false_iff]
  rw [show ("#attr" ++ natStr 0) = "#attr0" from rfl,
    show (":val" ++ natStr 0) = ":val0" from rfl]

/-- Claim C5 (amended): whenever at least one condition renders a
sub-expression (so `BuildExpression` returns a non-nil result), the
name-placeholder map has exactly one entry per condition with a non-blank
trimmed attribute name, keyed densely `#attr0, #attr1, …` in processing
order, and the value-placeholder map has exactly one entry per such
condition that both requires a value and supplies a non-empty trimmed value,
keyed `:val0, :val1, …` by an independently advancing counter.  (As
originally stated the claim fails when every reserved condition is dropped
for an empty value: the maps are discarded wholesale; see the
counterexample.) -/
theorem C5_compiler_determinism (conds : List FilterCondition)
    (e : String) (n : List (String × String)) (v : List (String × GoValue))
    (h : BuildExpression conds = some (e, n, v)) :
    n.length = conds.countP keptCond ∧
    n.map Prod.fst =
      (List.range' 0 (conds.countP keptCond)).map (fun i => "#attr" ++ natStr i) ∧
    v.length = conds.countP valuedCond ∧
    v.map Prod.fst =
      (List.range' 0 (conds.countP valuedCond)).map (fun i => ":val" ++ natStr i) := by
  rw [BuildExpression_eq] at h
  by_cases hcl : clausesOf conds 0 0 = []
  · rw [if_pos hcl] at h
    simp at h
  · rw [if_neg hcl] at h
    simp only [Option.some.injEq, Prod.mk.injEq] at h
    obtain ⟨_, hn, hv⟩ := h
    subst hn
    subst hv
    exact ⟨namesOf_length conds 0, namesOf_keys conds 0,
      valsOf_length conds 0, valsOf_keys conds 0⟩

/-- Counterexample for C5 as stated: a single non-blank-name Equals
condition with an empty value reserves a name placeholder, but the compiler
then renders nothing and returns the empty result with nil maps — zero name
placeholders for one non-blank-name condition. -/
theorem C5_counterexample :
    BuildExpression [⟨"a", .opEquals, ""⟩] = none ∧
    ([⟨"a", .opEquals, ""⟩] : List FilterCondition).countP keptCond = 1 := by
  constructor
  · decide
  · decide

/-- Witness for C5 on a four-condition list exercising skipped conditions
and the divergence between name and value counters. -/
theorem C5_witness :
    ([("#attr0", "a"), ("#attr1", "b"), ("#attr2", "c")] :
        List (String × String)).length =
      ([⟨"a", .opEquals, "1"⟩, ⟨" ", .opGreaterThan, "2"⟩, ⟨"b", .opExists, ""⟩,
        ⟨"c", .opLessThan, "3"⟩] : List FilterCondition).countP keptCond ∧
    ([("#attr0", "a"), ("#attr1", "b"), ("#attr2", "c")] :
        List (String × String)).map Prod.fst =
      (List.range' 0 (([⟨"a", .opEquals, "1"⟩, ⟨" ", .opGreaterThan, "2"⟩,
        ⟨"b", .opExists, ""⟩, ⟨"c", .opLessThan, "3"⟩] :
          List FilterCondition).countP keptCond)).map (fun i => "#attr" ++ natStr i) ∧
    ([(":val0", GoValue.num "1"), (":val1", GoValue.num "3")] :
        List (String × GoValue)).length =
      ([⟨"a", .opEquals, "1"⟩, ⟨" ", .opGreaterThan, "2"⟩, ⟨"b", .opExists, ""⟩,
        ⟨"c", .opLessThan, "3"⟩] : List FilterCondition).countP valuedCond ∧
    ([(":val0", GoValue.num "1"), (":val1", GoValue.num "3")] :
        List (String × GoValue)).map Prod.fst =
      (List.range' 0 (([⟨"a", .opEquals, "1"⟩, ⟨" ", .opGreaterThan, "2"⟩,
        ⟨"b", .opExists, ""⟩, ⟨"c", .opLessThan, "3"⟩] :
          List FilterCondition).countP valuedCond)).map (fun i => ":val" ++ natStr i) :=
  C5_compiler_determinism
    [⟨"a", .opEquals, "1"⟩, ⟨" ", .opGreaterThan, "2"⟩, ⟨"b", .opExists, ""⟩,
      ⟨"c", .opLessThan, "3"⟩]
    "#attr0 = :val0 AND attribute_exists(#attr1) AND #attr2 < :val1"
    [("#attr0", "a"), ("#attr1", "b"), ("#attr2", "c")]
    [(":val0", GoValue.num "1"), (":val1", GoValue.num "3")]
    (by decide)

/-- Claim C6: compiling an Equals (or any other comparison) condition
coerces its value by type sniffing — a numeric literal becomes a number,
`true`/`TRUE` a boolean, `null` becomes null, any other literal stays the
unchanged string — while Contains, NotContains and BeginsWith always store
the raw string, so Contains with value `42` stores the string `42`. -/
theorem C6_value_coercion :
    (∀ (name v : String) (op : FilterOperator),
      goTrimSpace name ≠ "" → goTrimSpace v ≠ "" → needsValue op = true →
      op ≠ .opContains → op ≠ .opNotContains → op ≠ .opBeginsWith →
      BuildExpression [⟨name, op, v⟩] =
        some (condExpr op "#attr0" ":val0", [("#attr0", goTrimSpace name)],
          [(":val0", parseValue (goTrimSpace v))])) ∧
    (∀ (name v : String) (op : FilterOperator),
      goTrimSpace name ≠ "" → goTrimSpace v ≠ "" →
      (op = .opContains ∨ op = .opNotContains ∨ op = .opBeginsWith) →
      BuildExpression [⟨name, op, v⟩] =
        some (condExpr op "#attr0" ":val0", [("#attr0", goTrimSpace name)],
          [(":val0", GoValue.str (goTrimSpace v))])) ∧
    parseValue "42" = .num "42" ∧ parseValue "true" = .boolean true ∧
    parseValue "TRUE" = .boolean true ∧ parseValue "null" = .null ∧
    (∀ v : String, goFloatAccepts v = false → goToLower v ≠ "true" →
      goToLower v ≠ "false" → goToLower v ≠ "null" → parseValue v = .str v) := by
  refine ⟨?_, ?_, by decide, by decide, by decide, by decide, ?_⟩
  · intro name v op hname hval hneed h1 h2 h3
    rw [BuildExpression_single_valued hname hval hneed,
      condValue_eq_parseValue hneed h1 h2 h3]
  · intro name v op hname hval hop
    have hneed : needsValue op = true := by
      rcases hop with rfl | rfl | rfl <;> rfl
    rw [BuildExpression_single_valued hname hval hneed]
    rcases hop with rfl | rfl | rfl <;> rfl
  · intro v h1 h2 h3 h4
    simp [parseValue, h1, h2, h3, h4]

/-- Witness for C6: an Equals condition with value 42 stores the number, a
Contains condition with the same value stores the string. -/
theorem C6_witness :
    BuildExpression [⟨"a", .opEquals, "42"⟩] =
      some (condExpr .opEquals "#attr0" ":val0", [("#attr0", goTrimSpace "a")],
        [(":val0", parseValue (goTrimSpace "42"))]) ∧
    BuildExpression [⟨"a", .opContains, "42"⟩] =
      some (condExpr .opContains "#attr0" ":val0", [("#attr0", goTrimSpace "a")],
        [(":val0", GoValue.str (goTrimSpace "42"))]) :=
  ⟨C6_value_coercion.1 "a" "42" .opEquals (by decide) (by decide) rfl
      (by decide) (by decide) (by decide),
    C6_value_coercion.2.1 "a" "42" .opContains (by decide) (by decide)
      (Or.inl rfl)⟩

/-- Claim C9: the literal `null` compiles to the Go `nil` interface value,
and `interfaceToAttributeValue`, having no `nil` case, sends it through the
default `fmt.Sprintf` branch as the string `<nil>` — not as a NULL-typed
attribute value. -/
theorem C9_null_becomes_string_nil :
    (∀ name : String, goTrimSpace name ≠ "" →
      BuildExpression [⟨name, .opEquals, "null"⟩] =
        some (condExpr .opEquals "#attr0" ":val0", [("#attr0", goTrimSpace name)],
          [(":val0", GoValue.null)])) ∧
    parseValue "null" = GoValue.null ∧
    interfaceToAttributeValue GoValue.null = AttrValue.S "<nil>" := by
  refine ⟨?_, by decide, rfl⟩
  intro name hname
  rw [BuildExpression_single_valued hname (by decide) (by decide)]
  rfl

/-- Witness for C9 at a concrete attribute name. -/
theorem C9_witness :
    BuildExpression [⟨"a", .opEquals, "null"⟩] =
      some (condExpr .opEquals "#attr0" ":val0", [("#attr0", goTrimSpace "a")],
        [(":val0", GoValue.null)]) :=
  (C9_null_becomes_string_nil.1) "a" (by decide)

/-! ### Claims about the query/scan planner -/

theorem pfx_infix_trans {p q s : List Char} (h1 : p <+: q) (h2 : q <:+: s) :
    p <:+: s := h1.isInfix.trans h2

theorem joined_ne_empty (cl : RClause) (cls : List RClause) :
    goJoin " AND " ((cl :: cls).map renderCl) ≠ "" := by
  intro h
  have hd : joinedData (cl :: cls) = [] := by
    have := congrArg String.data h
    simpa [joinedData] using this
  rw [joinedData_cons, renderCl_data] at hd
  simp at hd

theorem mapGet_cons_self {β : Type} (k : String) (b : β) (tl : List (String × β)) :
    mapGet ((k, b) :: tl) k = some b := by
  simp [mapGet, List.find?_cons_of_pos]

/-- Claim C10: when the first condition with a non-blank attribute name is
dropped for an empty value, its reserved placeholder `#attr0` never appears
in the rendered expression followed by `= :`, so `scanTable` never takes the
key-lookup query path for that compiled filter — whatever the table's keys
are — and always executes the (continuous) scan path instead. -/
theorem C10_dropped_first_never_query
    (pre : List FilterCondition) (c0 : FilterCondition) (rest : List FilterCondition)
    (e : String) (n : List (String × String)) (v : List (String × GoValue))
    (hpre : ∀ c ∈ pre, goTrimSpace c.attributeName = "")
    (h0 : goTrimSpace c0.attributeName ≠ "")
    (hneed : needsValue c0.operator = true)
    (hempty : goTrimSpace c0.attributeValue = "")
    (h : BuildExpression (pre ++ c0 :: rest) = some (e, n, v)) :
    goContains e "#attr0 = :" = false ∧
    ∀ (ct : String) (info : TableInfoM) (ps : Nat),
      scanTable ct (some info) ps e n (some v) =
        .continuousScanOp ct ps e n (some v) := by
  have hcl : clausesOf (pre ++ c0 :: rest) 0 0 = clausesOf rest 1 0 := by
    rw [clausesOf_blank_front pre _ _ _ hpre]
    simp [clausesOf, h0, hneed, hempty]
  have hnm : namesOf (pre ++ c0 :: rest) 0 =
      ("#attr0", goTrimSpace c0.attributeName) :: namesOf rest 1 := by
    rw [namesOf_blank_front pre _ _ hpre]
    simp only [namesOf, h0, ite_false, if_neg, not_false_iff]
    rw [show ("#attr" ++ natStr 0) = "#attr0" from rfl]
  rw [BuildExpression_eq, hcl] at h
  by_cases hnil : clausesOf rest 1 0 = []
  · rw [if_pos hnil] at h
    simp at h
  · rw [if_neg hnil] at h
    simp only [Option.some.injEq, Prod.mk.injEq] at h
    obtain ⟨he, hn, hv⟩ := h
    obtain ⟨cl, cls, htail⟩ := List.exists_cons_of_ne_nil hnil
    have hai : ∀ cl2 ∈ cl :: cls, 1 ≤ cl2.ai := by
      intro cl2 hm
      exact clausesOf_ai_ge rest 1 0 cl2 (htail ▸ hm)
    have hnotin := attr0_not_in_joined (cl :: cls) hai
    have hedata : e.data = joinedData (cl :: cls) := by
      rw [← he, htail]
      rfl
    have hc1 : goContains e "#attr0 = :" = false := by
      rw [goContains_eq_false_iff, hedata]
      intro hinf
      exact hnotin (pfx_infix_trans (by decide) hinf)
    have hc2 : goContains e "#attr0 =" = false := by
      rw [goContains_eq_false_iff, hedata]
      intro hinf
      exact hnotin (pfx_infix_trans (by decide) hinf)
    have hne : e ≠ "" := by
      rw [← he, htail]
      exact joined_ne_empty cl cls
    refine ⟨hc1, ?_⟩
    intro ct info ps
    have hlookup : mapGet n "#attr0" = some (goTrimSpace c0.attributeName) := by
      rw [← hn, hnm]
      exact mapGet_cons_self _ _ _
    simp [scanTable, hlookup, hc1, hc2, hne]

/-- Witness for C10: the first non-blank condition (on the partition key
itself) is dropped for an empty value; a later equality on the partition key
does not rescue the query path. -/
theorem C10_witness :
    goContains "#attr1 = :val0" "#attr0 = :" = false ∧
    scanTable "t" (some ⟨"id", []⟩) 50 "#attr1 = :val0"
        [("#attr0", "id"), ("#attr1", "id")] (some [(":val0", GoValue.num "1")]) =
      .continuousScanOp "t" 50 "#attr1 = :val0"
        [("#attr0", "id"), ("#attr1", "id")] (some [(":val0", GoValue.num "1")]) :=
  ⟨(C10_dropped_first_never_query [] ⟨"id", .opEquals, ""⟩ [⟨"id", .opEquals, "1"⟩]
      "#attr1 = :val0" [("#attr0", "id"), ("#attr1", "id")]
      [(":val0", GoValue.num "1")] (by simp) (by decide) (by decide) (by decide)
      (by decide)).1,
   (C10_dropped_first_never_query [] ⟨"id", .opEquals, ""⟩ [⟨"id", .opEquals, "1"⟩]
      "#attr1 = :val0" [("#attr0", "id"), ("#attr1", "id")]
      [(":val0", GoValue.num "1")] (by simp) (by decide) (by decide) (by decide)
      (by decide)).2 "t" ⟨"id", []⟩ 50⟩

theorem compile_head_valued
    (pre : List FilterCondition) (c0 : FilterCondition) (rest : List FilterCondition)
    (hpre : ∀ c ∈ pre, goTrimSpace c.attributeName = "")
    (h0 : goTrimSpace c0.attributeName ≠ "")
    (hneed : needsValue c0.operator = true)
    (hval : goTrimSpace c0.attributeValue ≠ "") :
    clausesOf (pre ++ c0 :: rest) 0 0 = ⟨c0.operator, 0, 0⟩ :: clausesOf rest 1 1 ∧
    namesOf (pre ++ c0 :: rest) 0 =
      ("#attr0", goTrimSpace c0.attributeName) :: namesOf rest 1 ∧
    valsOf (pre ++ c0 :: rest) 0 =
      (":val0", condValue c0.operator (goTrimSpace c0.attributeValue)) :: valsOf rest 1 := by
  refine ⟨?_, ?_, ?_⟩
  · rw [clausesOf_blank_front pre _ _ _ hpre]
    simp [clausesOf, h0, hneed, hval]
  · rw [namesOf_blank_front pre _ _ hpre]
    simp only [namesOf, h0, ite_false, if_neg, not_false_iff]
    rw [show ("#attr" ++ natStr 0) = "#attr0" from rfl]
  · rw [valsOf_blank_front pre _ _ hpre]
    simp only [valsOf, h0, hneed, hval, ite_false, ite_true, if_neg, if_pos,
      not_false_iff]
    rw [show (":val" ++ natStr 0) = ":val0" from rfl]

theorem compile_head_valueless
    (pre : List FilterCondition) (c0 : FilterCondition) (rest : List FilterCondition)
    (hpre : ∀ c ∈ pre, goTrimSpace c.attributeName = "")
    (h0 : goTrimSpace c0.attributeName ≠ "")
    (hneed : needsValue c0.operator = false) :
    clausesOf (pre ++ c0 :: rest) 0 0 = ⟨c0.operator, 0, 0⟩ :: clausesOf rest 1 0 ∧
    namesOf (pre ++ c0 :: rest) 0 =
      ("#attr0", goTrimSpace c0.attributeName) :: namesOf rest 1 ∧
    valsOf (pre ++ c0 :: rest) 0 = valsOf rest 0 := by
  refine ⟨?_, ?_, ?_⟩
  · rw [clausesOf_blank_front pre _ _ _ hpre]
    simp [clausesOf, h0, hneed]
  · rw [namesOf_blank_front pre _ _ hpre]
    simp only [namesOf, h0, ite_false, if_neg, not_false_iff]
    rw [show ("#attr" ++ natStr 0) = "#attr0" from rfl]
  · rw [valsOf_blank_front pre _ _ hpre]
    simp [valsOf, h0, hneed]

theorem scanTable_query_pk_eval (ct : String) (info : TableInfoM) (ps : Nat)
    (e : String) (n : List (String × String)) (v : List (String × GoValue))
    (attrName : String) (gv0 : GoValue)
    (hne : e ≠ "")
    (hlookup : mapGet n "#attr0" = some attrName)
    (hc1 : goContains e "#attr0 = :" = true)
    (hfind : v.find? (fun kv => goHasPrefix kv.1 ":val0") = some (":val0", gv0))
    (hvget : mapGet v ":val0" = some gv0)
    (hpk : attrName = info.partitionKey) :
    ∃ q, scanTable ct (some info) ps e n (some v) = .queryOp q ∧
      q.indexName = "" ∧ q.keyConditionExpression = "#pk = :val0" ∧
      mapGet q.expressionAttributeNames "#pk" = some info.partitionKey ∧
      mapGet q.expressionValues ":val0" = some gv0 := by
  simp [scanTable, hlookup, hc1, hfind, hvget, hne, hpk]
  exact ⟨rfl, mapGet_cons_self _ _ _, mapGet_cons_self _ _ _⟩

theorem scanTable_not_equality_eval (ct : String) (info : TableInfoM) (ps : Nat)
    (e : String) (n : List (String × String)) (v : List (String × GoValue))
    (attrName : String)
    (hne : e ≠ "")
    (hlookup : mapGet n "#attr0" = some attrName)
    (hc1 : goContains e "#attr0 = :" = false)
    (hc2 : goContains e "#attr0 =" = false) :
    scanTable ct (some info) ps e n (some v) =
      .continuousScanOp ct ps e n (some v) := by
  simp [scanTable, hlookup, hc1, hc2, hne]

theorem scanTable_no_matching_key_eval (ct : String) (info : TableInfoM) (ps : Nat)
    (e : String) (n : List (String × String)) (v : List (String × GoValue))
    (attrName : String)
    (hne : e ≠ "")
    (hlookup : mapGet n "#attr0" = some attrName)
    (hc1 : goContains e "#attr0 = :" = true)
    (hnpk : ¬ attrName = info.partitionKey)
    (hngsi : info.gsis.find?
      (fun gsi => decide (gsi.partitionKey = attrName)) = none) :
    scanTable ct (some info) ps e n (some v) =
      .continuousScanOp ct ps e n (some v) := by
  simp [scanTable, hlookup, hc1, hne, hnpk, hngsi]

/-- Claim C1: for a loaded table schema and a compiled filter whose first
condition (the holder of `#attr0`) is an equality on the table's partition
key, `scanTable` runs an indexed key-lookup query on the base table (no
index name) keyed by that condition's value placeholder `:val0`; and when
the first condition is not an equality on the table partition key or any
GSI partition key, it runs the continuous scan carrying the entire
unmodified filter. -/
theorem C1_planner_first_condition
    (ct : String) (info : TableInfoM) (ps : Nat)
    (pre : List FilterCondition) (c0 : FilterCondition) (rest : List FilterCondition)
    (hpre : ∀ c ∈ pre, goTrimSpace c.attributeName = "")
    (h0 : goTrimSpace c0.attributeName ≠ "") :
    (c0.operator = .opEquals → goTrimSpace c0.attributeValue ≠ "" →
      goTrimSpace c0.attributeName = info.partitionKey →
      ∃ e n v, BuildExpression (pre ++ c0 :: rest) = some (e, n, v) ∧
        ∃ q, scanTable ct (some info) ps e n (some v) = .queryOp q ∧
          q.indexName = "" ∧
          q.keyConditionExpression = "#pk = :val0" ∧
          mapGet q.expressionAttributeNames "#pk" = some info.partitionKey ∧
          mapGet q.expressionValues ":val0" =
            some (parseValue (goTrimSpace c0.attributeValue))) ∧
    ((needsValue c0.operator = true → goTrimSpace c0.attributeValue ≠ "") →
      ¬(c0.operator = .opEquals ∧
        (goTrimSpace c0.attributeName = info.partitionKey ∨
          goTrimSpace c0.attributeName ∈ info.gsis.map IndexInfoM.partitionKey)) →
      ∃ e n v, BuildExpression (pre ++ c0 :: rest) = some (e, n, v) ∧
        scanTable ct (some info) ps e n (some v) =
          .continuousScanOp ct ps e n (some v)) := by
  constructor
  · intro heq hv hpk
    have hneed : needsValue c0.operator = true := by rw [heq]; rfl
    obtain ⟨hcl, hnm, hvl⟩ := compile_head_valued pre c0 rest hpre h0 hneed hv
    rw [heq] at hcl
    refine ⟨goJoin " AND "
        ((⟨.opEquals, 0, 0⟩ :: clausesOf rest 1 1 : List RClause).map renderCl),
      namesOf (pre ++ c0 :: rest) 0, valsOf (pre ++ c0 :: rest) 0, ?_⟩
    have hBE : BuildExpression (pre ++ c0 :: rest) =
        some (goJoin " AND "
          ((⟨.opEquals, 0, 0⟩ :: clausesOf rest 1 1 : List RClause).map renderCl),
          namesOf (pre ++ c0 :: rest) 0, valsOf (pre ++ c0 :: rest) 0) := by
      rw [BuildExpression_eq, hcl]
      simp
    have hne : goJoin " AND "
        ((⟨.opEquals, 0, 0⟩ :: clausesOf rest 1 1 : List RClause).map renderCl) ≠ "" :=
      joined_ne_empty _ _
    have hlookup : mapGet (namesOf (pre ++ c0 :: rest) 0) "#attr0" =
        some (goTrimSpace c0.attributeName) := by
      rw [hnm]
      exact mapGet_cons_self _ _ _
    have hedata : (goJoin " AND "
        ((⟨.opEquals, 0, 0⟩ :: clausesOf rest 1 1 : List RClause).map renderCl)).data =
        ("#attr0 = :val0").data ++ tailJD (clausesOf rest 1 1) := by
      rw [show (goJoin " AND "
          ((⟨.opEquals, 0, 0⟩ :: clausesOf rest 1 1 : List RClause).map renderCl)).data =
          joinedData (⟨.opEquals, 0, 0⟩ :: clausesOf rest 1 1) from rfl,
        joinedData_cons]
      rw [show (renderCl ⟨.opEquals, 0, 0⟩).data = ("#attr0 = :val0").data from by decide]
    have hc1 : goContains (goJoin " AND "
        ((⟨.opEquals, 0, 0⟩ :: clausesOf rest 1 1 : List RClause).map renderCl))
        "#attr0 = :" = true := by
      apply goContains_of_pfx
      rw [hedata]
      exact (show ("#attr0 = :").data <+: ("#attr0 = :val0").data from by decide).trans
        (List.prefix_append _ _)
    have hfind : (valsOf (pre ++ c0 :: rest) 0).find?
        (fun kv => goHasPrefix kv.1 ":val0") =
        some (":val0", condValue c0.operator (goTrimSpace c0.attributeValue)) := by
      rw [hvl]
      exact List.find?_cons_of_pos _
        (show goHasPrefix ":val0" ":val0" = true from by decide)
    have hvget : mapGet (valsOf (pre ++ c0 :: rest) 0) ":val0" =
        some (condValue c0.operator (goTrimSpace c0.attributeValue)) := by
      rw [hvl]
      exact mapGet_cons_self _ _ _
    refine ⟨hBE, ?_⟩
    obtain ⟨q, h1, h2, h3, h4, h5⟩ :=
      scanTable_query_pk_eval ct info ps _ _ _ _ _ hne hlookup hc1 hfind hvget hpk
    refine ⟨q, h1, h2, h3, h4, ?_⟩
    rw [h5, heq]
    rfl
  · intro hrend hnot
    by_cases hop : c0.operator = .opEquals
    · have hneed : needsValue c0.operator = true := by rw [hop]; rfl
      have hv := hrend hneed
      obtain ⟨hcl, hnm, hvl⟩ := compile_head_valued pre c0 rest hpre h0 hneed hv
      rw [hop] at hcl
      have hnpk : ¬ goTrimSpace c0.attributeName = info.partitionKey :=
        fun hc => hnot ⟨hop, Or.inl hc⟩
      have hngsi : info.gsis.find?
          (fun gsi => decide (gsi.partitionKey = goTrimSpace c0.attributeName)) = none := by
        apply List.find?_eq_none.mpr
        intro g hg
        simp only [decide_eq_true_eq]
        intro hgeq
        exact hnot ⟨hop, Or.inr (List.mem_map.mpr ⟨g, hg, hgeq⟩)⟩
      refine ⟨goJoin " AND "
          ((⟨.opEquals, 0, 0⟩ :: clausesOf rest 1 1 : List RClause).map renderCl),
        namesOf (pre ++ c0 :: rest) 0, valsOf (pre ++ c0 :: rest) 0, ?_, ?_⟩
      · rw [BuildExpression_eq, hcl]
        simp
      · have hne : goJoin " AND "
            ((⟨.opEquals, 0, 0⟩ :: clausesOf rest 1 1 : List RClause).map renderCl) ≠ "" :=
          joined_ne_empty _ _
        have hlookup : mapGet (namesOf (pre ++ c0 :: rest) 0) "#attr0" =
            some (goTrimSpace c0.attributeName) := by
          rw [hnm]
          exact mapGet_cons_self _ _ _
        have hc1 : goContains (goJoin " AND "
            ((⟨.opEquals, 0, 0⟩ :: clausesOf rest 1 1 : List RClause).map renderCl))
            "#attr0 = :" = true := by
          apply goContains_of_pfx
          rw [show (goJoin " AND "
              ((⟨.opEquals, 0, 0⟩ :: clausesOf rest 1 1 : List RClause).map renderCl)).data =
              joinedData (⟨.opEquals, 0, 0⟩ :: clausesOf rest 1 1) from rfl,
            joinedData_cons,
            show (renderCl ⟨.opEquals, 0, 0⟩).data = ("#attr0 = :val0").data from by decide]
          exact (show ("#attr0 = :").data <+: ("#attr0 = :val0").data from by decide).trans
            (List.prefix_append _ _)
        exact scanTable_no_matching_key_eval ct info ps _ _ _ _ hne hlookup hc1 hnpk hngsi
    · have hshape : ∃ cls', clausesOf (pre ++ c0 :: rest) 0 0 =
          ⟨c0.operator, 0, 0⟩ :: cls' ∧
          (∀ cl ∈ cls', 1 ≤ cl.ai) ∧
          namesOf (pre ++ c0 :: rest) 0 =
            ("#attr0", goTrimSpace c0.attributeName) :: namesOf rest 1 := by
        cases hneedv : needsValue c0.operator with
        | false =>
          obtain ⟨h1, h2, _⟩ := compile_head_valueless pre c0 rest hpre h0 hneedv
          exact ⟨_, h1, fun cl hm => clausesOf_ai_ge rest 1 0 cl hm, h2⟩
        | true =>
          obtain ⟨h1, h2, _⟩ :=
            compile_head_valued pre c0 rest hpre h0 hneedv (hrend hneedv)
          exact ⟨_, h1, fun cl hm => clausesOf_ai_ge rest 1 1 cl hm, h2⟩
      obtain ⟨cls', hcl, hai, hnm⟩ := hshape
      have hnotin := attr0_eq_not_in_joined ⟨c0.operator, 0, 0⟩ cls' rfl
        (by simpa using hop) hai
      refine ⟨goJoin " AND "
          ((⟨c0.operator, 0, 0⟩ :: cls' : List RClause).map renderCl),
        namesOf (pre ++ c0 :: rest) 0, valsOf (pre ++ c0 :: rest) 0, ?_, ?_⟩
      · rw [BuildExpression_eq, hcl]
        simp
      · have hne : goJoin " AND "
            ((⟨c0.operator, 0, 0⟩ :: cls' : List RClause).map renderCl) ≠ "" :=
          joined_ne_empty _ _
        have hlookup : mapGet (namesOf (pre ++ c0 :: rest) 0) "#attr0" =
            some (goTrimSpace c0.attributeName) := by
          rw [hnm]
          exact mapGet_cons_self _ _ _
        have hedata : (goJoin " AND "
            ((⟨c0.operator, 0, 0⟩ :: cls' : List RClause).map renderCl)).data =
            joinedData (⟨c0.operator, 0, 0⟩ :: cls') := rfl
        have hc2 : goContains (goJoin " AND "
            ((⟨c0.operator, 0, 0⟩ :: cls' : List RClause).map renderCl))
            "#attr0 =" = false := by
          rw [goContains_eq_false_iff, hedata]
          exact hnotin
        have hc1 : goContains (goJoin " AND "
            ((⟨c0.operator, 0, 0⟩ :: cls' : List RClause).map renderCl))
            "#attr0 = :" = false := by
          rw [goContains_eq_false_iff, hedata]
          intro hinf
          exact hnotin (pfx_infix_trans (by decide) hinf)
        exact scanTable_not_equality_eval ct info ps _ _ _ _ hne hlookup hc1 hc2

/-- Witness for C1: an equality on the partition key `id` takes the
base-table query path keyed by `:val0`; a range condition on a non-key
attribute falls through to the continuous scan with the unmodified filter. -/
theorem C1_witness :
    (∃ e n v, BuildExpression [⟨"id", .opEquals, "42"⟩] = some (e, n, v) ∧
      ∃ q, scanTable "t" (some ⟨"id", []⟩) 50 e n (some v) = .queryOp q ∧
        q.indexName = "" ∧
        q.keyConditionExpression = "#pk = :val0" ∧
        mapGet q.expressionAttributeNames "#pk" =
          some (TableInfoM.mk "id" []).partitionKey ∧
        mapGet q.expressionValues ":val0" =
          some (parseValue (goTrimSpace "42"))) ∧
    (∃ e n v, BuildExpression [⟨"x", .opGreaterThan, "5"⟩] = some (e, n, v) ∧
      scanTable "t" (some ⟨"id", [⟨"g1", "g"⟩]⟩) 50 e n (some v) =
        .continuousScanOp "t" 50 e n (some v)) :=
  ⟨(C1_planner_first_condition "t" ⟨"id", []⟩ 50 [] ⟨"id", .opEquals, "42"⟩ []
      (by simp) (by decide)).1 rfl (by decide) (by decide),
   (C1_planner_first_condition "t" ⟨"id", [⟨"g1", "g"⟩]⟩ 50 []
      ⟨"x", .opGreaterThan, "5"⟩ [] (by simp) (by decide)).2
      (fun _ => by decide) (by decide)⟩
